import Mathlib

/-!
Verification of the eikosi bibliographic manager (src/eikosi.py) against its
natural-language specification.  The Python source is shallowly embedded:
pure helpers become Lean functions, stateful methods become explicit state
passing, Python exceptions become `Except` errors, and unbounded recursion
is modelled with explicit fuel.
-/

namespace Eikosi

/-! ## AuthorList comparison (eikosi.py lines 135-153, 387-429)

An author is a list of name parts (strings); an author list is a list of
authors, mirroring `AuthorList.names`.
-/

/-- Python string comparison `a < b`: lexicographic on code points. -/
def pyStrLtGo : List Char → List Char → Bool
  | [], [] => false
  | [], _ :: _ => true
  | _ :: _, [] => false
  | c :: cs, d :: ds =>
    if c.toNat < d.toNat then true
    else if d.toNat < c.toNat then false
    else pyStrLtGo cs ds

/-- Python string comparison `a < b`: lexicographic on code points. -/
def pyStrLt (a b : String) : Bool :=
  pyStrLtGo a.data b.data

/-- Mirrors `eikosi._fingerprint`: keep only alphabetic characters of the
string and lower-case them. -/
def fingerprint (text : String) : String :=
  String.mk ((text.data.filter Char.isAlpha).map Char.toLower)

/-- Scanner for `eikosi._initial`: the boolean is the escape flag. -/
def initialGo : Bool → List Char → Option Char
  | _, [] => none
  | true, _ :: rest => initialGo false rest
  | false, c :: rest =>
    if c = '\\' then initialGo true rest
    else if c.isAlpha then some c.toUpper
    else initialGo false rest

/-- Mirrors `eikosi._initial`: first unescaped alphabetic character of the
part, upper-cased.  The Python function raises when no alphabetic character
exists, modelled here by `none`. -/
def initial (part : String) : Option Char :=
  initialGo false part.data

/-- Python `name[-1]`: last element, IndexError on an empty list. -/
def lastPart : List String → Except String String
  | [] => Except.error "IndexError: name has no parts"
  | [p] => Except.ok p
  | _ :: p :: rest => lastPart (p :: rest)

/-- Python `_initial(name[0])`: IndexError on an empty name, and
`_initial` itself raises when the part has no alphabetic character. -/
def initialExc : List String → Except String Char
  | [] => Except.error "IndexError: name has no parts"
  | p :: _ =>
    match initial p with
    | some c => Except.ok c
    | none => Except.error "Exception: _initial found no alpha character"

/-- Loop body of `AuthorList.__lt__` (lines 388-398): `some r` models an
early `return r`, `none` models falling out of the `for` loop. -/
def alLtGo : List (List String) → List (List String) → Except String (Option Bool)
  | namea :: as, nameb :: bs => do
    let lasta := fingerprint (← lastPart namea)
    let lastb := fingerprint (← lastPart nameb)
    if lasta ≠ lastb then
      pure (some (pyStrLt lasta lastb))
    else if namea.length = 1 ∨ nameb.length = 1 then
      alLtGo as bs
    else do
      let ia ← initialExc namea
      let ib ← initialExc nameb
      if ia < ib then pure (some true) else alLtGo as bs
  | _, _ => pure none

/-- Mirrors `AuthorList.__lt__` (lines 387-399). -/
def alLt (a b : List (List String)) : Except String Bool := do
  match ← alLtGo a b with
  | some r => pure r
  | none => pure (decide (a.length < b.length))

/-- Loop body of `AuthorList.__gt__` (lines 403-413). -/
def alGtGo : List (List String) → List (List String) → Except String (Option Bool)
  | namea :: as, nameb :: bs => do
    let lasta := fingerprint (← lastPart namea)
    let lastb := fingerprint (← lastPart nameb)
    if lasta ≠ lastb then
      pure (some (pyStrLt lastb lasta))
    else if namea.length = 1 ∨ nameb.length = 1 then
      alGtGo as bs
    else do
      let ia ← initialExc namea
      let ib ← initialExc nameb
      if ib < ia then pure (some true) else alGtGo as bs
  | _, _ => pure none

/-- Mirrors `AuthorList.__gt__` (lines 402-414). -/
def alGt (a b : List (List String)) : Except String Bool := do
  match ← alGtGo a b with
  | some r => pure r
  | none => pure (decide (b.length < a.length))

/-- Loop of `AuthorList.__eq__` (lines 419-429). -/
def alEqGo : List (List String) → List (List String) → Except String Bool
  | namea :: as, nameb :: bs => do
    let fa := fingerprint (← lastPart namea)
    let fb := fingerprint (← lastPart nameb)
    if fa ≠ fb then
      pure false
    else if namea.length = 1 ∨ nameb.length = 1 then
      alEqGo as bs
    else do
      let ia ← initialExc namea
      let ib ← initialExc nameb
      if ia ≠ ib then pure false else alEqGo as bs
  | _, _ => pure true

/-- Mirrors `AuthorList.__eq__` (lines 416-429). -/
def alEq (a b : List (List String)) : Except String Bool :=
  if a.length ≠ b.length then pure false else alEqGo a b

/-- Modelled from the claim wording, for comparison with the source: the
fingerprint described by the spec keeps case-folded alphanumeric
characters. -/
def specFingerprint (text : String) : String :=
  String.mk ((text.data.filter Char.isAlphanum).map Char.toLower)

/-- Modelled from the claim wording, for comparison with the source: the
three-way comparison of a single author pair, last-name fingerprints
first, then first initials when both names have more than one part. -/
def specOrdName (namea nameb : List String) : Ordering :=
  let fa := specFingerprint (namea.getLastD "")
  let fb := specFingerprint (nameb.getLastD "")
  if pyStrLt fa fb then Ordering.lt
  else if pyStrLt fb fa then Ordering.gt
  else if namea.length ≤ 1 ∨ nameb.length ≤ 1 then Ordering.eq
  else
    match initial (namea.headD ""), initial (nameb.headD "") with
    | some ia, some ib =>
      if ia < ib then Ordering.lt
      else if ib < ia then Ordering.gt
      else Ordering.eq
    | _, _ => Ordering.eq

/-- Modelled from the claim wording, for comparison with the source: the
lexicographic author-by-author comparison the claim describes, with the
shorter list preceding the longer when all compared pairs match. -/
def specOrd : List (List String) → List (List String) → Ordering
  | [], [] => Ordering.eq
  | [], _ :: _ => Ordering.lt
  | _ :: _, [] => Ordering.gt
  | a :: as, b :: bs =>
    match specOrdName a b with
    | Ordering.eq => specOrd as bs
    | o => o

/-- First counterexample author list: B. Smith and A. Jones. -/
def alA : List (List String) := [["B", "Smith"], ["A", "Jones"]]

/-- Second counterexample author list: A. Smith and B. Jones. -/
def alB : List (List String) := [["A", "Smith"], ["B", "Jones"]]

example : alLt alA alB = Except.ok true := by rfl

example : alGt alA alB = Except.ok true := by rfl

example : alEq alA alB = Except.ok false := by rfl

example : specOrd alA alB = Ordering.gt := by rfl

/-- Total version of Python `name[-1]` for nonempty lists. -/
def lastPartD : List String → String
  | [] => ""
  | [p] => p
  | _ :: p :: rest => lastPartD (p :: rest)

/-- Fingerprint of the last name part. -/
def fpLast (name : List String) : String :=
  fingerprint (lastPartD name)

/-- Total version of `_initial(name[0])`; the default is never reached on
well-formed names. -/
def init0 (name : List String) : Char :=
  (initial (name.headD "")).getD ' '

/-- A name is well formed when it has at least one part and, if it has more
than one part, its first part contains an alphabetic character, so that the
Python comparison methods raise no exception on it. -/
def WFName (name : List String) : Prop :=
  name ≠ [] ∧ (1 < name.length → (initial (name.headD "")).isSome)

/-- All names of an author list are well formed. -/
def WFNames (l : List (List String)) : Prop :=
  ∀ name ∈ l, WFName name

instance (name : List String) : Decidable (WFName name) := by
  unfold WFName; infer_instance

instance (l : List (List String)) : Decidable (WFNames l) := by
  unfold WFNames; infer_instance

/-- The outcome the `__lt__` scan produces on each pair, as a relation:
the scan stops with `true` at a pair whose last-name fingerprints differ
with the left one smaller, or at a pair with equal fingerprints, both
names multi-part, and a smaller left initial. -/
def LtDecides (x y : List String) : Prop :=
  (fpLast x ≠ fpLast y ∧ pyStrLt (fpLast x) (fpLast y) = true)
  ∨ (fpLast x = fpLast y ∧ 1 < x.length ∧ 1 < y.length ∧ init0 x < init0 y)

/-- The `__lt__` scan moves past a pair without deciding: equal last-name
fingerprints and either a single-part name or a first initial that is not
smaller — in particular a pair whose left initial is strictly larger is
skipped rather than deciding the comparison. -/
def LtSkips (x y : List String) : Prop :=
  fpLast x = fpLast y ∧ (x.length = 1 ∨ y.length = 1 ∨ ¬ init0 x < init0 y)

/-- Amended behaviour of `AuthorList.__lt__`: the scan decides at the first
deciding pair, skipping earlier pairs; when the scan exhausts a list, the
shorter list precedes the longer. -/
def LtSpec : List (List String) → List (List String) → Prop
  | x :: xs, y :: ys => LtDecides x y ∨ (LtSkips x y ∧ LtSpec xs ys)
  | xs, ys => xs.length < ys.length

/-- Mirror image of `LtDecides` for `__gt__`. -/
def GtDecides (x y : List String) : Prop :=
  (fpLast x ≠ fpLast y ∧ pyStrLt (fpLast y) (fpLast x) = true)
  ∨ (fpLast x = fpLast y ∧ 1 < x.length ∧ 1 < y.length ∧ init0 y < init0 x)

/-- Mirror image of `LtSkips` for `__gt__`. -/
def GtSkips (x y : List String) : Prop :=
  fpLast x = fpLast y ∧ (x.length = 1 ∨ y.length = 1 ∨ ¬ init0 y < init0 x)

/-- Amended behaviour of `AuthorList.__gt__`. -/
def GtSpec : List (List String) → List (List String) → Prop
  | x :: xs, y :: ys => GtDecides x y ∨ (GtSkips x y ∧ GtSpec xs ys)
  | xs, ys => ys.length < xs.length

/-- Pairwise equality condition of `AuthorList.__eq__`: matching last-name
fingerprints and, when both names are multi-part, matching first initials. -/
def EqPairs : List (List String) → List (List String) → Prop
  | x :: xs, y :: ys =>
    (fpLast x = fpLast y ∧ (x.length ≠ 1 → y.length ≠ 1 → init0 x = init0 y))
    ∧ EqPairs xs ys
  | _, _ => True

/-- Total mirror of the `__lt__` scan loop, defined on well-formed input. -/
def ltScan : List (List String) → List (List String) → Option Bool
  | x :: xs, y :: ys =>
    if fpLast x ≠ fpLast y then some (pyStrLt (fpLast x) (fpLast y))
    else if x.length = 1 ∨ y.length = 1 then ltScan xs ys
    else if init0 x < init0 y then some true
    else ltScan xs ys
  | _, _ => none

/-- Total mirror of the `__gt__` scan loop. -/
def gtScan : List (List String) → List (List String) → Option Bool
  | x :: xs, y :: ys =>
    if fpLast x ≠ fpLast y then some (pyStrLt (fpLast y) (fpLast x))
    else if x.length = 1 ∨ y.length = 1 then gtScan xs ys
    else if init0 y < init0 x then some true
    else gtScan xs ys
  | _, _ => none

/-- Total mirror of the `__eq__` loop. -/
def eqScan : List (List String) → List (List String) → Bool
  | x :: xs, y :: ys =>
    if fpLast x ≠ fpLast y then false
    else if x.length = 1 ∨ y.length = 1 then eqScan xs ys
    else if init0 x ≠ init0 y then false
    else eqScan xs ys
  | _, _ => true

theorem lastPart_eq (name : List String) (h : name ≠ []) :
    lastPart name = Except.ok (lastPartD name) := by
  induction name with
  | nil => exact absurd rfl h
  | cons p rest ih =>
    cases rest with
    | nil => rfl
    | cons q rest2 =>
      show lastPart (q :: rest2) = Except.ok (lastPartD (q :: rest2))
      exact ih (by simp)

theorem initialExc_eq (name : List String) (hw : WFName name)
    (hl : 1 < name.length) : initialExc name = Except.ok (init0 name) := by
  obtain ⟨hne, hin⟩ := hw
  cases name with
  | nil => exact absurd rfl hne
  | cons p rest =>
    have := hin hl
    simp only [List.headD] at this ⊢
    cases h : initial p with
    | none => rw [h] at this; simp at this
    | some c =>
      simp only [initialExc, h, init0, List.headD, Option.getD]

theorem alLtGo_eq (a b : List (List String)) (ha : WFNames a) (hb : WFNames b) :
    alLtGo a b = Except.ok (ltScan a b) := by
  induction a generalizing b with
  | nil => cases b <;> rfl
  | cons x xs ih =>
    cases b with
    | nil => rfl
    | cons y ys =>
      have hwx : WFName x := ha x (by simp)
      have hwy : WFName y := hb y (by simp)
      have ha2 : WFNames xs := fun n hn => ha n (by simp [hn])
      have hb2 : WFNames ys := fun n hn => hb n (by simp [hn])
      have hx := lastPart_eq x hwx.1
      have hy := lastPart_eq y hwy.1
      simp only [alLtGo, hx, hy, ltScan, bind, Except.bind, fpLast]
      by_cases hfp : fingerprint (lastPartD x) = fingerprint (lastPartD y)
      · simp only [hfp, ne_eq, not_true_eq_false, if_false, ite_false]
        by_cases hlen : x.length = 1 ∨ y.length = 1
        · simp only [if_pos hlen, ih ys ha2 hb2]
        · have h1x : 1 < x.length := by
            have h0 : x.length ≠ 0 := fun h => hwx.1 (List.length_eq_zero.mp h)
            have h1 : x.length ≠ 1 := fun h => hlen (Or.inl h)
            omega
          have h1y : 1 < y.length := by
            have h0 : y.length ≠ 0 := fun h => hwy.1 (List.length_eq_zero.mp h)
            have h1 : y.length ≠ 1 := fun h => hlen (Or.inr h)
            omega
          rw [if_neg hlen, if_neg hlen]
          rw [initialExc_eq x hwx h1x, initialExc_eq y hwy h1y]
          simp only [bind, Except.bind]
          by_cases hin : init0 x < init0 y
          · simp [hin, pure, Except.pure]
          · simp [hin, ih ys ha2 hb2]
      · simp [hfp, pure, Except.pure]

theorem alGtGo_eq (a b : List (List String)) (ha : WFNames a) (hb : WFNames b) :
    alGtGo a b = Except.ok (gtScan a b) := by
  induction a generalizing b with
  | nil => cases b <;> rfl
  | cons x xs ih =>
    cases b with
    | nil => rfl
    | cons y ys =>
      have hwx : WFName x := ha x (by simp)
      have hwy : WFName y := hb y (by simp)
      have ha2 : WFNames xs := fun n hn => ha n (by simp [hn])
      have hb2 : WFNames ys := fun n hn => hb n (by simp [hn])
      have hx := lastPart_eq x hwx.1
      have hy := lastPart_eq y hwy.1
      simp only [alGtGo, hx, hy, gtScan, bind, Except.bind, fpLast]
      by_cases hfp : fingerprint (lastPartD x) = fingerprint (lastPartD y)
      · simp only [hfp, ne_eq, not_true_eq_false, if_false, ite_false]
        by_cases hlen : x.length = 1 ∨ y.length = 1
        · simp only [if_pos hlen, ih ys ha2 hb2]
        · have h1x : 1 < x.length := by
            have h0 : x.length ≠ 0 := fun h => hwx.1 (List.length_eq_zero.mp h)
            have h1 : x.length ≠ 1 := fun h => hlen (Or.inl h)
            omega
          have h1y : 1 < y.length := by
            have h0 : y.length ≠ 0 := fun h => hwy.1 (List.length_eq_zero.mp h)
            have h1 : y.length ≠ 1 := fun h => hlen (Or.inr h)
            omega
          rw [if_neg hlen, if_neg hlen]
          rw [initialExc_eq x hwx h1x, initialExc_eq y hwy h1y]
          simp only [bind, Except.bind]
          by_cases hin : init0 y < init0 x
          · simp [hin, pure, Except.pure]
          · simp [hin, ih ys ha2 hb2]
      · simp [hfp, pure, Except.pure]

theorem alEqGo_eq (a b : List (List String)) (ha : WFNames a) (hb : WFNames b) :
    alEqGo a b = Except.ok (eqScan a b) := by
  induction a generalizing b with
  | nil => cases b <;> rfl
  | cons x xs ih =>
    cases b with
    | nil => rfl
    | cons y ys =>
      have hwx : WFName x := ha x (by simp)
      have hwy : WFName y := hb y (by simp)
      have ha2 : WFNames xs := fun n hn => ha n (by simp [hn])
      have hb2 : WFNames ys := fun n hn => hb n (by simp [hn])
      have hx := lastPart_eq x hwx.1
      have hy := lastPart_eq y hwy.1
      simp only [alEqGo, hx, hy, eqScan, bind, Except.bind, fpLast]
      by_cases hfp : fingerprint (lastPartD x) = fingerprint (lastPartD y)
      · simp only [hfp, ne_eq, not_true_eq_false, if_false, ite_false]
        by_cases hlen : x.length = 1 ∨ y.length = 1
        · simp only [if_pos hlen, ih ys ha2 hb2]
        · have h1x : 1 < x.length := by
            have h0 : x.length ≠ 0 := fun h => hwx.1 (List.length_eq_zero.mp h)
            have h1 : x.length ≠ 1 := fun h => hlen (Or.inl h)
            omega
          have h1y : 1 < y.length := by
            have h0 : y.length ≠ 0 := fun h => hwy.1 (List.length_eq_zero.mp h)
            have h1 : y.length ≠ 1 := fun h => hlen (Or.inr h)
            omega
          rw [if_neg hlen, if_neg hlen]
          rw [initialExc_eq x hwx h1x, initialExc_eq y hwy h1y]
          simp only [bind, Except.bind]
          by_cases hin : init0 x = init0 y
          · simp [hin, ih ys ha2 hb2]
          · simp [hin, pure, Except.pure]
      · simp [hfp, pure, Except.pure]

theorem alLt_eq (a b : List (List String)) (ha : WFNames a) (hb : WFNames b) :
    alLt a b =
      Except.ok ((ltScan a b).getD (decide (a.length < b.length))) := by
  unfold alLt
  rw [show (do
        match ← alLtGo a b with
        | some r => pure r
        | none => pure (decide (a.length < b.length)) :
        Except String Bool) =
      (alLtGo a b >>= fun o =>
        match o with
        | some r => pure r
        | none => pure (decide (a.length < b.length))) from rfl]
  rw [alLtGo_eq a b ha hb]
  cases ltScan a b <;> rfl

theorem alGt_eq (a b : List (List String)) (ha : WFNames a) (hb : WFNames b) :
    alGt a b =
      Except.ok ((gtScan a b).getD (decide (b.length < a.length))) := by
  unfold alGt
  rw [show (do
        match ← alGtGo a b with
        | some r => pure r
        | none => pure (decide (b.length < a.length)) :
        Except String Bool) =
      (alGtGo a b >>= fun o =>
        match o with
        | some r => pure r
        | none => pure (decide (b.length < a.length))) from rfl]
  rw [alGtGo_eq a b ha hb]
  cases gtScan a b <;> rfl

theorem alEq_eq (a b : List (List String)) (ha : WFNames a) (hb : WFNames b) :
    alEq a b =
      Except.ok (if a.length = b.length then eqScan a b else false) := by
  unfold alEq
  by_cases h : a.length = b.length
  · rw [if_neg (by simp [h]), if_pos h, alEqGo_eq a b ha hb]
  · rw [if_pos (by simp [h]), if_neg h]; rfl

theorem ltScan_iff (a b : List (List String)) (ha : WFNames a) (hb : WFNames b) :
    (ltScan a b).getD (decide (a.length < b.length)) = true ↔ LtSpec a b := by
  induction a generalizing b with
  | nil =>
    cases b with
    | nil => simp [ltScan, LtSpec]
    | cons y ys => simp [ltScan, LtSpec]
  | cons x xs ih =>
    cases b with
    | nil => simp [ltScan, LtSpec]
    | cons y ys =>
      have hwx : WFName x := ha x (by simp)
      have hwy : WFName y := hb y (by simp)
      have ha2 : WFNames xs := fun n hn => ha n (by simp [hn])
      have hb2 : WFNames ys := fun n hn => hb n (by simp [hn])
      by_cases hfp : fpLast x = fpLast y
      · by_cases hlen : x.length = 1 ∨ y.length = 1
        · have hsk : LtSkips x y := ⟨hfp, by tauto⟩
          have hnd : ¬ LtDecides x y := by
            intro h
            rcases h with ⟨h1, _⟩ | ⟨_, h2x, h2y, _⟩
            · exact h1 hfp
            · rcases hlen with h | h <;> omega
          have hred : ltScan (x :: xs) (y :: ys) = ltScan xs ys := by
            simp [ltScan, hfp, hlen]
          have hlen2 :
              (ltScan xs ys).getD (decide ((x :: xs).length < (y :: ys).length)) =
              (ltScan xs ys).getD (decide (xs.length < ys.length)) := by
            cases ltScan xs ys <;> simp [Nat.succ_lt_succ_iff]
          rw [hred, hlen2, ih ys ha2 hb2]
          show LtSpec xs ys ↔ LtSpec (x :: xs) (y :: ys)
          simp only [LtSpec]
          tauto
        · have h1x : 1 < x.length := by
            have h0 : x.length ≠ 0 := fun h => hwx.1 (List.length_eq_zero.mp h)
            have h1 : x.length ≠ 1 := fun h => hlen (Or.inl h)
            omega
          have h1y : 1 < y.length := by
            have h0 : y.length ≠ 0 := fun h => hwy.1 (List.length_eq_zero.mp h)
            have h1 : y.length ≠ 1 := fun h => hlen (Or.inr h)
            omega
          by_cases hin : init0 x < init0 y
          · have hd : LtDecides x y := Or.inr ⟨hfp, h1x, h1y, hin⟩
            have hred : ltScan (x :: xs) (y :: ys) = some true := by
              simp [ltScan, hfp, hlen, hin]
            rw [hred]
            show true = true ↔ LtSpec (x :: xs) (y :: ys)
            simp only [LtSpec]
            tauto
          · have hsk : LtSkips x y := ⟨hfp, Or.inr (Or.inr hin)⟩
            have hnd : ¬ LtDecides x y := by
              intro h
              rcases h with ⟨h1, _⟩ | ⟨_, _, _, h2⟩
              · exact h1 hfp
              · exact hin h2
            have hred : ltScan (x :: xs) (y :: ys) = ltScan xs ys := by
              simp [ltScan, hfp, hlen, hin]
            have hlen2 :
                (ltScan xs ys).getD (decide ((x :: xs).length < (y :: ys).length)) =
                (ltScan xs ys).getD (decide (xs.length < ys.length)) := by
              cases ltScan xs ys <;> simp [Nat.succ_lt_succ_iff]
            rw [hred, hlen2, ih ys ha2 hb2]
            show LtSpec xs ys ↔ LtSpec (x :: xs) (y :: ys)
            simp only [LtSpec]
            tauto
      · have hred : ltScan (x :: xs) (y :: ys) = some (pyStrLt (fpLast x) (fpLast y)) := by
          simp [ltScan, hfp]
        have hns : ¬ LtSkips x y := fun h => hfp h.1
        rw [hred]
        show pyStrLt (fpLast x) (fpLast y) = true ↔ LtSpec (x :: xs) (y :: ys)
        simp only [LtSpec, LtDecides]
        constructor
        · intro h; exact Or.inl (Or.inl ⟨hfp, h⟩)
        · intro h
          rcases h with (⟨_, h⟩ | ⟨heq, _, _, _⟩) | ⟨hsk, _⟩
          · exact h
          · exact absurd heq hfp
          · exact absurd hsk.1 hfp

theorem gtScan_iff (a b : List (List String)) (ha : WFNames a) (hb : WFNames b) :
    (gtScan a b).getD (decide (b.length < a.length)) = true ↔ GtSpec a b := by
  induction a generalizing b with
  | nil =>
    cases b with
    | nil => simp [gtScan, GtSpec]
    | cons y ys => simp [gtScan, GtSpec]
  | cons x xs ih =>
    cases b with
    | nil => simp [gtScan, GtSpec]
    | cons y ys =>
      have hwx : WFName x := ha x (by simp)
      have hwy : WFName y := hb y (by simp)
      have ha2 : WFNames xs := fun n hn => ha n (by simp [hn])
      have hb2 : WFNames ys := fun n hn => hb n (by simp [hn])
      by_cases hfp : fpLast x = fpLast y
      · by_cases hlen : x.length = 1 ∨ y.length = 1
        · have hnd : ¬ GtDecides x y := by
            intro h
            rcases h with ⟨h1, _⟩ | ⟨_, h2x, h2y, _⟩
            · exact h1 hfp
            · rcases hlen with h | h <;> omega
          have hsk : GtSkips x y := ⟨hfp, by tauto⟩
          have hred : gtScan (x :: xs) (y :: ys) = gtScan xs ys := by
            simp [gtScan, hfp, hlen]
          have hlen2 :
              (gtScan xs ys).getD (decide ((y :: ys).length < (x :: xs).length)) =
              (gtScan xs ys).getD (decide (ys.length < xs.length)) := by
            cases gtScan xs ys <;> simp [Nat.succ_lt_succ_iff]
          rw [hred, hlen2, ih ys ha2 hb2]
          show GtSpec xs ys ↔ GtSpec (x :: xs) (y :: ys)
          simp only [GtSpec]
          tauto
        · have h1x : 1 < x.length := by
            have h0 : x.length ≠ 0 := fun h => hwx.1 (List.length_eq_zero.mp h)
            have h1 : x.length ≠ 1 := fun h => hlen (Or.inl h)
            omega
          have h1y : 1 < y.length := by
            have h0 : y.length ≠ 0 := fun h => hwy.1 (List.length_eq_zero.mp h)
            have h1 : y.length ≠ 1 := fun h => hlen (Or.inr h)
            omega
          by_cases hin : init0 y < init0 x
          · have hd : GtDecides x y := Or.inr ⟨hfp, h1x, h1y, hin⟩
            have hred : gtScan (x :: xs) (y :: ys) = some true := by
              simp [gtScan, hfp, hlen, hin]
            rw [hred]
            show true = true ↔ GtSpec (x :: xs) (y :: ys)
            simp only [GtSpec]
            tauto
          · have hsk : GtSkips x y := ⟨hfp, Or.inr (Or.inr hin)⟩
            have hnd : ¬ GtDecides x y := by
              intro h
              rcases h with ⟨h1, _⟩ | ⟨_, _, _, h2⟩
              · exact h1 hfp
              · exact hin h2
            have hred : gtScan (x :: xs) (y :: ys) = gtScan xs ys := by
              simp [gtScan, hfp, hlen, hin]
            have hlen2 :
                (gtScan xs ys).getD (decide ((y :: ys).length < (x :: xs).length)) =
                (gtScan xs ys).getD (decide (ys.length < xs.length)) := by
              cases gtScan xs ys <;> simp [Nat.succ_lt_succ_iff]
            rw [hred, hlen2, ih ys ha2 hb2]
            show GtSpec xs ys ↔ GtSpec (x :: xs) (y :: ys)
            simp only [GtSpec]
            tauto
      · have hred : gtScan (x :: xs) (y :: ys) = some (pyStrLt (fpLast y) (fpLast x)) := by
          simp [gtScan, hfp]
        rw [hred]
        show pyStrLt (fpLast y) (fpLast x) = true ↔ GtSpec (x :: xs) (y :: ys)
        simp only [GtSpec, GtDecides]
        constructor
        · intro h; exact Or.inl (Or.inl ⟨hfp, h⟩)
        · intro h
          rcases h with (⟨_, h⟩ | ⟨heq, _, _, _⟩) | ⟨hsk, _⟩
          · exact h
          · exact absurd heq hfp
          · exact absurd hsk.1 hfp

theorem eqScan_iff (a b : List (List String)) (ha : WFNames a) (hb : WFNames b) :
    eqScan a b = true ↔ EqPairs a b := by
  induction a generalizing b with
  | nil =>
    cases b with
    | nil => simp [eqScan, EqPairs]
    | cons y ys => simp [eqScan, EqPairs]
  | cons x xs ih =>
    cases b with
    | nil => simp [eqScan, EqPairs]
    | cons y ys =>
      have ha2 : WFNames xs := fun n hn => ha n (by simp [hn])
      have hb2 : WFNames ys := fun n hn => hb n (by simp [hn])
      by_cases hfp : fpLast x = fpLast y
      · by_cases hlen : x.length = 1 ∨ y.length = 1
        · have hred : eqScan (x :: xs) (y :: ys) = eqScan xs ys := by
            simp [eqScan, hfp, hlen]
          rw [hred, ih ys ha2 hb2]
          show EqPairs xs ys ↔ EqPairs (x :: xs) (y :: ys)
          simp only [EqPairs]
          constructor
          · intro h
            refine ⟨⟨hfp, fun h1 h2 => ?_⟩, h⟩
            rcases hlen with h3 | h3
            · exact absurd h3 h1
            · exact absurd h3 h2
          · intro h; exact h.2
        · by_cases hin : init0 x = init0 y
          · have hred : eqScan (x :: xs) (y :: ys) = eqScan xs ys := by
              simp [eqScan, hfp, hlen, hin]
            rw [hred, ih ys ha2 hb2]
            show EqPairs xs ys ↔ EqPairs (x :: xs) (y :: ys)
            simp only [EqPairs]
            exact ⟨fun h => ⟨⟨hfp, fun _ _ => hin⟩, h⟩, fun h => h.2⟩
          · have hred : eqScan (x :: xs) (y :: ys) = false := by
              simp [eqScan, hfp, hlen, hin]
            rw [hred]
            simp only [EqPairs]
            constructor
            · intro h; simp at h
            · intro h
              have h1 : x.length ≠ 1 := fun h1 => hlen (Or.inl h1)
              have h2 : y.length ≠ 1 := fun h2 => hlen (Or.inr h2)
              exact absurd (h.1.2 h1 h2) hin
      · have hred : eqScan (x :: xs) (y :: ys) = false := by
          simp [eqScan, hfp]
        rw [hred]
        constructor
        · intro h; simp at h
        · intro h
          exact absurd h.1.1 hfp

/-- Claim C9 counterexample: for the two-author lists alA (B. Smith, A. Jones)
and alB (A. Smith, B. Jones), the comparison the claim describes (author by
author, last-name fingerprints first, then first initials) decides that alA
is greater than alB, yet the implementation of `__lt__` returns True on the
pair — `__lt__` and `__gt__` both return True on these unequal lists, which
no comparison decided by a single lexicographic scan can produce.  The claim
that the order relations are decided by that lexicographic comparison is
therefore false on the code. -/
theorem authorlist_order_claim_refuted :
    specOrd alA alB = Ordering.gt
    ∧ alLt alA alB = Except.ok true
    ∧ alGt alA alB = Except.ok true
    ∧ alEq alA alB = Except.ok false := by
  exact ⟨rfl, rfl, rfl, rfl⟩

/-- Claim C9 (amended): on well-formed author lists, equality holds iff the
lists have the same length and, pairwise, the case-folded alphabetic-only
fingerprints of the last names match and (when both names have more than one
part) the first initials match; `__lt__` returns True iff its scan reaches a
pair whose last-name fingerprints differ with the left one smaller, or a
pair with equal fingerprints, both names multi-part and a smaller left
initial — pairs with a larger initial are skipped rather than deciding the
comparison — or the scan exhausts a list and the left list is shorter;
`__gt__` is the mirror image, so the two relations are not mutually
exclusive. -/
theorem authorlist_compare_semantics (a b : List (List String))
    (ha : WFNames a) (hb : WFNames b) :
    (alEq a b = Except.ok true ↔ (a.length = b.length ∧ EqPairs a b))
    ∧ (alLt a b = Except.ok true ↔ LtSpec a b)
    ∧ (alGt a b = Except.ok true ↔ GtSpec a b) := by
  refine ⟨?_, ?_, ?_⟩
  · rw [alEq_eq a b ha hb]
    by_cases h : a.length = b.length
    · rw [if_pos h]
      simp only [Except.ok.injEq]
      constructor
      · intro hh
        exact ⟨h, (eqScan_iff a b ha hb).mp hh⟩
      · intro hh
        exact (eqScan_iff a b ha hb).mpr hh.2
    · rw [if_neg h]
      simp [h]
  · rw [alLt_eq a b ha hb]
    simp only [Except.ok.injEq]
    exact ltScan_iff a b ha hb
  · rw [alGt_eq a b ha hb]
    simp only [Except.ok.injEq]
    exact gtScan_iff a b ha hb

/-- Witness for the amended Claim C9 theorem at a concrete input. -/
theorem authorlist_compare_semantics_witness :
    WFNames alA ∧ WFNames alB
    ∧ ((alEq alA alB = Except.ok true ↔ (alA.length = alB.length ∧ EqPairs alA alB))
       ∧ (alLt alA alB = Except.ok true ↔ LtSpec alA alB)
       ∧ (alGt alA alB = Except.ok true ↔ GtSpec alA alB)) := by
  refine ⟨by decide, by decide, authorlist_compare_semantics alA alB (by decide) (by decide)⟩

/-! ## Collection graph model (eikosi.py lines 1797-2778)

Collections are mutable Python objects forming an arbitrary graph; the
embedding is an arena of nodes addressed by stable identifiers, with an
explicit state record threaded through every method.  Python dicts are
insertion-ordered association lists; Python object identity is identifier
equality.  Exceptions are modelled by returning the partially mutated state
together with the raised message, because eikosi methods mutate before some
of the raises.  Unbounded Python recursion carries a fuel parameter; fuel
exhaustion models `RecursionError`.
-/

/-- A Python value stored in an entry bib dict: the types eikosi compares
during sorting.  `vother` stands for objects with no `<` support. -/
inductive PyVal where
  | vint (n : Int)
  | vstr (s : String)
  | vnone
  | vother
deriving DecidableEq

/-- Collection node identifiers (Python object identity). -/
abbrev NodeId := Nat

/-- Entry identifiers (Python object identity). -/
abbrev EntryId := Nat

/-- The three concrete collection classes. -/
inductive NodeKind where
  | masterCollection
  | collection
  | subCollection
deriving DecidableEq

/-- Mirror of an `Entry` instance: its name, the built-in string
attributes from `Entry.__init__`, its bib dict, and its `collections`
attribute (the list that `MasterCollection.add` appends the master to). -/
structure EntryObj where
  ename : String
  sourcefile : String := ""
  docfile : String := ""
  doc : String := ""
  bib : List (String × PyVal) := []
  colls : List NodeId := []
deriving DecidableEq

/-- Mirror of a `ProtoCollection` instance.  `entries` and `children` are
per-instance dicts created by `__init__`; `master` and `iflag` read the
class default (`None`, `False`) until first assigned; `sortedInst` is
`none` until a `self._sorted = ...` assignment creates the instance
attribute, before which attribute lookup finds the class-level dict. -/
structure Node where
  kind : NodeKind
  cname : String
  entries : List (String × EntryId)
  children : List (String × NodeId)
  master : Option NodeId
  iflag : Bool
  sortedInst : Option (List (String × List EntryId))
deriving DecidableEq

/-- The whole interpreter state: the node arena, the entry arena, and the
class-level `ProtoCollection._sorted` dict shared by every instance that
has not yet assigned its own. -/
structure PyState where
  nodes : List (Nat × Node)
  entryArena : List (Nat × EntryObj)
  classSorted : List (String × List EntryId)
deriving DecidableEq

/-- Ordered-dict lookup. -/
def dictGet {α : Type} : List (String × α) → String → Option α
  | [], _ => none
  | (k', v') :: rest, k => if k' = k then some v' else dictGet rest k

/-- Ordered-dict write: an existing key keeps its position, a new key is
appended, exactly as a Python dict behaves. -/
def dictSet {α : Type} : List (String × α) → String → α → List (String × α)
  | [], k, v => [(k, v)]
  | (k', v') :: rest, k, v =>
    if k' = k then (k, v) :: rest else (k', v') :: dictSet rest k v

/-- Ordered-dict deletion (`del d[k]`). -/
def dictDel {α : Type} : List (String × α) → String → List (String × α)
  | [], _ => []
  | (k', v') :: rest, k =>
    if k' = k then rest else (k', v') :: dictDel rest k

/-- Arena lookup. -/
def arenaGet {α : Type} : List (Nat × α) → Nat → Option α
  | [], _ => none
  | (k', v') :: rest, k => if k' = k then some v' else arenaGet rest k

/-- Arena write. -/
def arenaSet {α : Type} : List (Nat × α) → Nat → α → List (Nat × α)
  | [], k, v => [(k, v)]
  | (k', v') :: rest, k, v =>
    if k' = k then (k, v) :: rest else (k', v') :: arenaSet rest k v

/-- Fetch a node. -/
def getNode (s : PyState) (i : NodeId) : Option Node :=
  arenaGet s.nodes i

/-- Store a node. -/
def setNode (s : PyState) (i : NodeId) (n : Node) : PyState :=
  { s with nodes := arenaSet s.nodes i n }

/-- Fetch an entry. -/
def getEntry (s : PyState) (i : EntryId) : Option EntryObj :=
  arenaGet s.entryArena i

/-- Store an entry. -/
def setEntry (s : PyState) (i : EntryId) (e : EntryObj) : PyState :=
  { s with entryArena := arenaSet s.entryArena i e }

/-- `node.children.values()`. -/
def childVals (s : PyState) (i : NodeId) : List NodeId :=
  match getNode s i with
  | some nd => nd.children.map Prod.snd
  | none => []

/-- `node.entries.values()`. -/
def entryVals (s : PyState) (i : NodeId) : List EntryId :=
  match getNode s i with
  | some nd => nd.entries.map Prod.snd
  | none => []

/-- `node._iflag`. -/
def getIflag (s : PyState) (i : NodeId) : Bool :=
  match getNode s i with
  | some nd => nd.iflag
  | none => false

/-- `node._iflag = b`. -/
def updIflag (s : PyState) (i : NodeId) (b : Bool) : PyState :=
  match getNode s i with
  | some nd => setNode s i { nd with iflag := b }
  | none => s

/-- First loop of `CollectionIterator._depth_last` (lines 1836-1839): mark
each unmarked child and append it to the schedule. -/
def depthLastMark (s : PyState) : List NodeId → PyState × List NodeId
  | [] => (s, [])
  | k :: ks =>
    if getIflag s k then depthLastMark s ks
    else
      let s1 := updIflag s k true
      let (s2, rest) := depthLastMark s1 ks
      (s2, k :: rest)

/-- Sequence a child-visiting function over a list of children,
accumulating the visited lists and stopping at the first failure, exactly
as a Python `for` loop stops at the first exception. -/
def foldVisit (f : PyState → NodeId → PyState × Option (List NodeId)) :
    PyState → List NodeId → List NodeId → PyState × Option (List NodeId)
  | s, r, [] => (s, some r)
  | s, r, k :: ks =>
    match f s k with
    | (s1, some r2) => foldVisit f s1 (r ++ r2) ks
    | (s1, none) => (s1, none)

/-- `CollectionIterator._depth_last` (lines 1834-1841).  The second loop
recurses into every child unconditionally; fuel exhaustion models the
Python `RecursionError`, returning the partially mutated state. -/
def depthLast : Nat → PyState → NodeId → PyState × Option (List NodeId)
  | 0, s, _ => (s, none)
  | fuel + 1, s, t =>
    let kids := childVals s t
    let (s1, newly) := depthLastMark s kids
    match foldVisit (depthLast fuel) s1 [] kids with
    | (s2, some r) => (s2, some (newly ++ r))
    | (s2, none) => (s2, none)

/-- `CollectionIterator._depth_first` (lines 1843-1849). -/
def depthFirst : Nat → PyState → NodeId → PyState × Option (List NodeId)
  | 0, s, _ => (s, none)
  | fuel + 1, s, t =>
    if getIflag s t then (s, some [])
    else
      let s1 := updIflag s t true
      match foldVisit (depthFirst fuel) s1 [] (childVals s1 t) with
      | (s2, some r) => (s2, some (r ++ [t]))
      | (s2, none) => (s2, none)

/-- Sequence a counting function over a list of children, adding up the
results and stopping at the first failure. -/
def foldCount (f : PyState → NodeId → PyState × Option Nat) :
    PyState → Nat → List NodeId → PyState × Option Nat
  | s, c, [] => (s, some c)
  | s, c, k :: ks =>
    match f s k with
    | (s1, some c2) => foldCount f s1 (c + c2) ks
    | (s1, none) => (s1, none)

/-- `ProtoCollection._set_iflag` (lines 1936-1955): set the flag on this
and every reachable child whose flag differs, counting the flips. -/
def setIflagRec : Nat → PyState → NodeId → Bool → PyState × Option Nat
  | 0, s, _, _ => (s, none)
  | fuel + 1, s, t, v =>
    if getIflag s t = v then (s, some 0)
    else
      let s1 := updIflag s t v
      match foldCount (fun sIn k => setIflagRec fuel sIn k v) s1 0 (childVals s1 t) with
      | (s2, some c) => (s2, some (1 + c))
      | (s2, none) => (s2, none)

/-- `CollectionIterator.__init__` (lines 1815-1829): build the schedule in
the requested order, clear all flags, and raise on a marker-count
mismatch. -/
def iterInit (fuel : Nat) (s : PyState) (target : NodeId)
    (depthfirst inclusive : Bool) : PyState × Except String (List NodeId) :=
  let built : PyState × Except String (List NodeId) :=
    if depthfirst then
      match depthFirst fuel s target with
      | (s1, none) => (s1, Except.error "RecursionError")
      | (s1, some sched) =>
        if inclusive then (s1, Except.ok sched)
        else
          match sched with
          | [] => (s1, Except.error "IndexError: del schedule[-1] on empty schedule")
          | _ => (s1, Except.ok sched.dropLast)
    else
      let s1 := updIflag s target true
      let sched0 := if inclusive then [target] else []
      match depthLast fuel s1 target with
      | (s2, none) => (s2, Except.error "RecursionError")
      | (s2, some r) => (s2, Except.ok (sched0 ++ r))
  match built with
  | (s1, Except.error e) => (s1, Except.error e)
  | (s1, Except.ok sched) =>
    match setIflagRec fuel s1 target false with
    | (s2, none) => (s2, Except.error "RecursionError")
    | (s2, some count) =>
      if count ≠ sched.length then
        (s2, Except.error "Exception: CollectionIterator _iflag irregularity")
      else
        (s2, Except.ok sched)

/-- `ProtoCollection.__iter__` (lines 1931-1934): all entries of all
collections in the default iteration order. -/
def protoIter (fuel : Nat) (s : PyState) (target : NodeId) :
    PyState × Except String (List EntryId) :=
  match iterInit fuel s target false true with
  | (s1, Except.error e) => (s1, Except.error e)
  | (s1, Except.ok sched) => (s1, Except.ok (sched.flatMap (entryVals s1)))

/-- `ProtoCollection.collections` (lines 1992-2007): just the iterator with
the chosen options. -/
def collectionsOp (fuel : Nat) (s : PyState) (target : NodeId)
    (depthfirst rself : Bool) : PyState × Except String (List NodeId) :=
  iterInit fuel s target depthfirst rself

/-- Inner lookup loop of `ProtoCollection.get` (lines 2253-2257). -/
def getScan (s : PyState) (entryname : String) : List NodeId → Option EntryId
  | [] => none
  | c :: cs =>
    match getNode s c with
    | some nd =>
      match dictGet nd.entries entryname with
      | some e => some e
      | none => getScan s entryname cs
    | none => getScan s entryname cs

/-- `ProtoCollection.get` (lines 2246-2257): scan the default iteration
order for the first collection owning the name. -/
def protoGet (fuel : Nat) (s : PyState) (target : NodeId) (entryname : String) :
    PyState × Except String (Option EntryId) :=
  match iterInit fuel s target false true with
  | (s1, Except.error e) => (s1, Except.error e)
  | (s1, Except.ok sched) => (s1, Except.ok (getScan s1 entryname sched))

/-- `ProtoCollection.flatten` (lines 1957-1974): iterate the children
excluding self, pull their entries in, then drop the children.  The
iterator is constructed before the first loop body runs, so an iterator
exception leaves the entry and children dicts untouched. -/
def flattenOp (fuel : Nat) (s : PyState) (target : NodeId) (remove : Bool) :
    PyState × Except String Unit :=
  match collectionsOp fuel s target false false with
  | (s1, Except.error e) => (s1, Except.error e)
  | (s1, Except.ok sched) =>
    let pull := fun (sAcc : PyState) (c : NodeId) =>
      (entryVals sAcc c).foldl
        (fun sIn eid =>
          match getEntry sIn eid, getNode sIn target with
          | some eo, some tnd =>
            if target ∈ eo.colls then sIn
            else
              let sIn2 := setNode sIn target
                { tnd with entries := dictSet tnd.entries eo.ename eid }
              setEntry sIn2 eid { eo with colls := eo.colls ++ [target] }
          | _, _ => sIn)
        sAcc
    let s2 := sched.foldl pull s1
    if remove then
      match getNode s2 target with
      | some tnd => (setNode s2 target { tnd with children := [] }, Except.ok ())
      | none => (s2, Except.ok ())
    else
      (s2, Except.ok ())

/-- A single standalone collection named A with no children and no entries:
built by `Collection('A')` alone. -/
def singletonState : PyState :=
  { nodes := [(0, { kind := NodeKind.collection, cname := "A", entries := [],
                    children := [], master := none, iflag := false,
                    sortedInst := none })],
    entryArena := [], classSorted := [] }

/-- Claim C5: refuted on the code.  On the one-collection graph — which is
well formed and reachable through the public operations — every traversal
that excludes the initiating collection raises the marker-count-mismatch
internal-consistency error: the schedule omits the initiating collection
but the cleanup pass still counts its marker, so `collections(rself=False)`
and therefore `flatten()` always raise it.  The inclusive traversal on the
same graph succeeds, isolating the defect to the exclusive bookkeeping. -/
theorem iterator_mismatch_raised_on_wellformed_graph :
    (collectionsOp 9 singletonState 0 false false).2 =
      Except.error "Exception: CollectionIterator _iflag irregularity"
    ∧ (flattenOp 9 singletonState 0 true).2 =
      Except.error "Exception: CollectionIterator _iflag irregularity"
    ∧ (collectionsOp 9 singletonState 0 false true).2 = Except.ok [0]
    ∧ (collectionsOp 9 singletonState 0 true false).2 =
      Except.error "Exception: CollectionIterator _iflag irregularity" := by
  refine ⟨rfl, rfl, rfl, rfl⟩

/-- The intentional two-collection cycle of Claim C8: A is a child of B and
B is a child of A. -/
def cycleState : PyState :=
  { nodes := [(0, { kind := NodeKind.collection, cname := "A", entries := [],
                    children := [("B", 1)], master := none, iflag := false,
                    sortedInst := none }),
              (1, { kind := NodeKind.collection, cname := "B", entries := [],
                    children := [("A", 0)], master := none, iflag := false,
                    sortedInst := none })],
    entryArena := [], classSorted := [] }

/-- The cycle state with both iteration flags already set, which is what
the schedule construction reaches before it starts cycling. -/
def cycleMarked : PyState :=
  { nodes := [(0, { kind := NodeKind.collection, cname := "A", entries := [],
                    children := [("B", 1)], master := none, iflag := true,
                    sortedInst := none }),
              (1, { kind := NodeKind.collection, cname := "B", entries := [],
                    children := [("A", 0)], master := none, iflag := true,
                    sortedInst := none })],
    entryArena := [], classSorted := [] }

theorem cycle_depthLast_diverges (fuel : Nat) :
    depthLast fuel cycleMarked 0 = (cycleMarked, none)
    ∧ depthLast fuel cycleMarked 1 = (cycleMarked, none) := by
  induction fuel with
  | zero => exact ⟨rfl, rfl⟩
  | succ fuel ih =>
    obtain ⟨ih0, ih1⟩ := ih
    constructor
    · show depthLast (fuel + 1) cycleMarked 0 = (cycleMarked, none)
      rw [depthLast]
      simp only [show childVals cycleMarked 0 = [1] from rfl,
        show depthLastMark cycleMarked [1] = (cycleMarked, []) from rfl,
        foldVisit, ih1]
    · show depthLast (fuel + 1) cycleMarked 1 = (cycleMarked, none)
      rw [depthLast]
      simp only [show childVals cycleMarked 1 = [0] from rfl,
        show depthLastMark cycleMarked [0] = (cycleMarked, []) from rfl,
        foldVisit, ih0]

/-- The cycle state after the iterator has marked only the initiating
collection A. -/
def cycleHalfA : PyState :=
  { nodes := [(0, { kind := NodeKind.collection, cname := "A", entries := [],
                    children := [("B", 1)], master := none, iflag := true,
                    sortedInst := none }),
              (1, { kind := NodeKind.collection, cname := "B", entries := [],
                    children := [("A", 0)], master := none, iflag := false,
                    sortedInst := none })],
    entryArena := [], classSorted := [] }

theorem cycle_depthLast_from_start (fuel : Nat) :
    depthLast (fuel + 1) cycleHalfA 0 = (cycleMarked, none) := by
  rw [depthLast]
  simp only [show childVals cycleHalfA 0 = [1] from rfl,
    show depthLastMark cycleHalfA [1] = (cycleMarked, [1]) from rfl,
    foldVisit, (cycle_depthLast_diverges fuel).2]

/-- Claim C8: refuted on the code.  On the intentional cycle (A child of B,
B child of A) the default depth-last schedule construction recurses into
every child unconditionally, so for every recursion budget it runs out of
stack: deep traversal, `get`, and the entry iteration that `duplicates`
consumes all abort with a RecursionError instead of terminating after
visiting A and B once each. -/
theorem cycle_traversal_never_terminates (fuel : Nat) :
    (iterInit fuel cycleState 0 false true).2 = Except.error "RecursionError"
    ∧ (protoGet fuel cycleState 0 "x").2 = Except.error "RecursionError"
    ∧ (protoIter fuel cycleState 0).2 = Except.error "RecursionError" := by
  have hinit : (iterInit fuel cycleState 0 false true).2 =
      Except.error "RecursionError" := by
    cases fuel with
    | zero => rfl
    | succ n =>
      show (iterInit (n + 1) cycleState 0 false true).2 = _
      unfold iterInit
      simp only [if_neg (by simp : ¬ (false = true)),
        show updIflag cycleState 0 true = cycleHalfA from rfl,
        cycle_depthLast_from_start n]
  refine ⟨hinit, ?_, ?_⟩
  · unfold protoGet
    revert hinit
    cases h : iterInit fuel cycleState 0 false true with
    | mk s1 r =>
      cases r with
      | error e => intro hinit; simp at hinit; simp [hinit]
      | ok sched => intro hinit; simp at hinit
  · unfold protoIter
    revert hinit
    cases h : iterInit fuel cycleState 0 false true with
    | mk s1 r =>
      cases r with
      | error e => intro hinit; simp at hinit; simp [hinit]
      | ok sched => intro hinit; simp at hinit

/-! ## Mutating operations: add, addchild, merge, remove -/

/-- `MasterCollection.add` (lines 2499-2520): O(1) collision check against
the flat map, then register the entry, append the master to the entry
collections list, and reset the instance sort cache. -/
def masterAdd (s : PyState) (m : NodeId) (e : EntryId) :
    PyState × Except String Unit :=
  match getNode s m, getEntry s e with
  | some nd, some eo =>
    let proceed :=
      let s1 := setNode s m
        { nd with entries := dictSet nd.entries eo.ename e,
                  sortedInst := some [] }
      match getEntry s1 e with
      | some eo1 => (setEntry s1 e { eo1 with colls := eo1.colls ++ [m] }, Except.ok ())
      | none => (s1, Except.ok ())
    match dictGet nd.entries eo.ename with
    | some t =>
      if t ≠ e then
        (s, Except.error "Exception: MasterCollection.add collision")
      else proceed
    | none => proceed
  | _, _ => (s, Except.error "NameError")

/-- `ProtoCollection.add` and its dispatch (lines 2150-2181): a masterless
collection checks only its own dict; a collection with a master delegates
the collision check and flat-map registration to `master.add`, then
registers the entry locally and resets its own instance sort cache.  The
fuel bounds the `self.master.add` call chain. -/
def addOp : Nat → PyState → NodeId → EntryId → PyState × Except String Unit
  | 0, s, _, _ => (s, Except.error "RecursionError")
  | fuel + 1, s, c, e =>
    match getNode s c with
    | none => (s, Except.error "NameError")
    | some nd =>
      if nd.kind = NodeKind.masterCollection then masterAdd s c e
      else
        let finish := fun (sIn : PyState) =>
          match getNode sIn c, getEntry sIn e with
          | some nd1, some eo1 =>
            (setNode sIn c
              { nd1 with entries := dictSet nd1.entries eo1.ename e,
                         sortedInst := some [] }, Except.ok ())
          | _, _ => (sIn, Except.error "NameError")
        match nd.master with
        | none =>
          match getEntry s e with
          | none => (s, Except.error "NameError")
          | some eo =>
            match dictGet nd.entries eo.ename with
            | some t =>
              if t ≠ e then
                (s, Except.error "Exception: ProtoCollection.add contradicts an existing entry")
              else finish s
            | none => finish s
        | some m =>
          match addOp fuel s m e with
          | (s1, Except.error err) => (s1, Except.error err)
          | (s1, Except.ok _) => finish s1

/-- `ProtoCollection.getchild` (lines 2136-2147): scan the default
iteration order for a collection with the requested name. -/
def getchildOp (fuel : Nat) (s : PyState) (target : NodeId) (cname : String) :
    PyState × Except String (Option NodeId) :=
  match iterInit fuel s target false true with
  | (s1, Except.error e) => (s1, Except.error e)
  | (s1, Except.ok sched) =>
    (s1, Except.ok (sched.find? (fun c =>
      match getNode s1 c with
      | some nd => nd.cname = cname
      | none => false)))

/-- `ProtoCollection.addchild` (lines 2052-2075): type check, master
agreement check, name-collision check through `haschild`, then register
the child and transfer the parent master pointer to it. -/
def protoAddchild (fuel : Nat) (s : PyState) (p c : NodeId) :
    PyState × Except String Unit :=
  match getNode s p, getNode s c with
  | some pnd, some cnd =>
    if cnd.kind = NodeKind.masterCollection then
      (s, Except.error "TypeError: child collections must be Collection or SubCollection")
    else
      let masterCheck : Option String :=
        match cnd.master with
        | none => none
        | some cm =>
          match pnd.master with
          | none => some "Exception: child belongs to a master but parent does not"
          | some pm =>
            if pm ≠ cm then some "Exception: child and parent have different masters"
            else none
      match masterCheck with
      | some msg => (s, Except.error msg)
      | none =>
        match getchildOp fuel s p cnd.cname with
        | (s1, Except.error e) => (s1, Except.error e)
        | (s1, Except.ok (some _)) =>
          (s1, Except.error "Exception: parent already has a child with that name")
        | (s1, Except.ok none) =>
          match getNode s1 p, getNode s1 c with
          | some pnd1, some cnd1 =>
            let s2 := setNode s1 p
              { pnd1 with children := dictSet pnd1.children cnd1.cname c }
            match getNode s2 c with
            | some cnd2 => (setNode s2 c { cnd2 with master := pnd1.master }, Except.ok ())
            | none => (s2, Except.error "NameError")
          | _, _ => (s1, Except.error "NameError")
  | _, _ => (s, Except.error "NameError")

/-- Entry loop of `MasterCollection.addchild` (lines 2768-2776): each
yielded entry is checked against the flat map and immediately written into
it, so a conflict discovered partway leaves every earlier entry already
registered. -/
def masterAddchildLoop (m : NodeId) :
    PyState → List EntryId → PyState × Except String Unit
  | s, [] => (s, Except.ok ())
  | s, eid :: rest =>
    match getEntry s eid with
    | none => (s, Except.error "NameError")
    | some eo =>
      match getNode s m with
      | none => (s, Except.error "NameError")
      | some mnd =>
        match dictGet mnd.entries eo.ename with
        | some old =>
          if old ≠ eid then
            (s, Except.error "Exception: MasterCollection.addchild contradictory entries")
          else
            masterAddchildLoop m
              (setNode s m { mnd with entries := dictSet mnd.entries eo.ename eid }) rest
        | none =>
          masterAddchildLoop m
            (setNode s m { mnd with entries := dictSet mnd.entries eo.ename eid }) rest

/-- `MasterCollection.addchild` (lines 2751-2778): the child must be a
`Collection` proper, with a compatible master and a fresh name; then its
reachable entries are folded into the flat map one at a time.  The method
never writes the child into `self.children` and never assigns
`cnew.master`. -/
def masterAddchild (fuel : Nat) (s : PyState) (m c : NodeId) :
    PyState × Except String Unit :=
  match getNode s c with
  | none => (s, Except.error "NameError")
  | some cnd =>
    if cnd.kind ≠ NodeKind.collection then
      (s, Except.error "Exception: only Collections can be a child of a MasterCollection")
    else
      let masterBad : Bool :=
        match cnd.master with
        | some cm => decide (cm ≠ m)
        | none => false
      if masterBad then
        (s, Except.error "Exception: collection is already associated with another MasterCollection")
      else
        match getNode s m with
        | none => (s, Except.error "NameError")
        | some mnd =>
          if (dictGet mnd.children cnd.cname).isSome then
            (s, Except.error "Exception: there is already a collection with that name")
          else
            match protoIter fuel s c with
            | (s1, Except.error e) => (s1, Except.error e)
            | (s1, Except.ok eids) => masterAddchildLoop m s1 eids

/-- Dispatch of `addchild` on the runtime class of the parent. -/
def addchildOp (fuel : Nat) (s : PyState) (p c : NodeId) :
    PyState × Except String Unit :=
  match getNode s p with
  | none => (s, Except.error "NameError")
  | some pnd =>
    if pnd.kind = NodeKind.masterCollection then masterAddchild fuel s p c
    else protoAddchild fuel s p c

/-- `MasterCollection.merge` (lines 2702-2749): after the argument type
check and the conflict count over directly held entry and child names, the
method calls `self.update(target)`; no class in eikosi.py defines
`update`, so every call that reaches that line raises `AttributeError`. -/
def mergeOp (s : PyState) (a b : NodeId) (overwrite : Bool) :
    PyState × Except String Unit :=
  match getNode s a, getNode s b with
  | some and1, some bnd =>
    if and1.kind ≠ NodeKind.masterCollection then
      (s, Except.error "AttributeError: merge")
    else if bnd.kind ≠ NodeKind.masterCollection then
      (s, Except.error "Exception: MasterCollection.merge target is not a MasterCollection")
    else
      let conflictE := (and1.entries.filter (fun kv =>
        match dictGet bnd.entries kv.1 with
        | some other => other ≠ kv.2
        | none => false)).length
      let conflictC := (and1.children.filter (fun kv =>
        match dictGet bnd.children kv.1 with
        | some other => other ≠ kv.2
        | none => false)).length
      if conflictE + conflictC ≠ 0 ∧ overwrite = false then
        (s, Except.error "Exception: MasterCollection.merge redundant entries")
      else
        (s, Except.error "AttributeError: MasterCollection object has no attribute update")
  | _, _ => (s, Except.error "NameError")

/-- `ProtoCollection.remove` with the default `recurse=True`
(lines 2184-2231): delete the name from every collection in the iteration
order, raising only if no collection owned it.  The method never touches
`_sorted`. -/
def removeOp (fuel : Nat) (s : PyState) (n : NodeId) (entryname : String) :
    PyState × Except String Unit :=
  match iterInit fuel s n false true with
  | (s1, Except.error e) => (s1, Except.error e)
  | (s1, Except.ok sched) =>
    let step := fun (acc : PyState × Bool) (c : NodeId) =>
      match getNode acc.1 c with
      | some cnd =>
        if (dictGet cnd.entries entryname).isSome then
          (setNode acc.1 c { cnd with entries := dictDel cnd.entries entryname }, true)
        else acc
      | none => acc
    let (s2, found) := sched.foldl step (s1, false)
    if found then (s2, Except.ok ())
    else (s2, Except.error "Exception: ProtoCollection.remove entry not found")

/-- Two disjoint MasterCollections: master 0 holds entry a1, master 1
holds entry b1; no entry-name or collection-name collisions exist. -/
def mergeState : PyState :=
  { nodes := [(0, { kind := NodeKind.masterCollection, cname := "main",
                    entries := [("a1", 0)], children := [], master := some 0,
                    iflag := false, sortedInst := none }),
              (1, { kind := NodeKind.masterCollection, cname := "main",
                    entries := [("b1", 1)], children := [], master := some 1,
                    iflag := false, sortedInst := none })],
    entryArena := [(0, { ename := "a1" }), (1, { ename := "b1" })],
    classSorted := [] }

/-- Claim C2: refuted on the code.  For two MasterCollections with no
name collisions at all, `A.merge(B)` does not succeed: after the conflict
checks pass it executes `self.update(target)`, and no class in eikosi.py
defines `update`, so the call raises `AttributeError` with both
collections left exactly as they were — nothing is imported and B is not
emptied. -/
theorem merge_always_raises_attribute_error :
    mergeOp mergeState 0 1 false =
      (mergeState,
        Except.error "AttributeError: MasterCollection object has no attribute update") := by
  rfl

/-! ## Frame lemmas: traversal only mutates iteration flags -/

/-- Forget the iteration flag of a node. -/
def stripNode (nd : Node) : Node :=
  { nd with iflag := false }

/-- Forget every iteration flag of the state. -/
def eraseFlags (s : PyState) : PyState :=
  { s with nodes := s.nodes.map (fun p => (p.1, stripNode p.2)) }

theorem arenaGet_map {α β : Type} (f : α → β) (l : List (Nat × α)) (k : Nat) :
    arenaGet (l.map (fun p => (p.1, f p.2))) k = (arenaGet l k).map f := by
  induction l with
  | nil => rfl
  | cons p rest ih =>
    by_cases h : p.1 = k
    · simp [arenaGet, h]
    · simp [arenaGet, h, ih]

theorem arenaGet_set {α : Type} (l : List (Nat × α)) (k : Nat) (v : α) (j : Nat) :
    arenaGet (arenaSet l k v) j = if k = j then some v else arenaGet l j := by
  induction l with
  | nil =>
    by_cases h : k = j
    · simp [arenaSet, arenaGet, h]
    · simp [arenaSet, arenaGet, h]
  | cons p rest ih =>
    obtain ⟨pk, pv⟩ := p
    simp only [arenaSet]
    by_cases h1 : pk = k
    · subst h1
      by_cases h2 : pk = j
      · simp [arenaGet, h2]
      · simp [arenaGet, h2]
    · simp only [if_neg h1]
      by_cases h2 : pk = j
      · have h3 : ¬ k = j := fun hh => h1 (by rw [hh, h2])
        simp [arenaGet, h2, h3]
      · simp [arenaGet, h2, ih]

theorem arenaSet_self {α : Type} (l : List (Nat × α)) (k : Nat) (v : α)
    (h : arenaGet l k = some v) : arenaSet l k v = l := by
  induction l with
  | nil => simp [arenaGet] at h
  | cons p rest ih =>
    obtain ⟨pk, pv⟩ := p
    by_cases h1 : pk = k
    · subst h1
      simp [arenaGet] at h
      simp [arenaSet, h]
    · simp [arenaGet, h1] at h
      simp [arenaSet, h1, ih h]

theorem map_arenaSet {α β : Type} (f : α → β) (l : List (Nat × α)) (k : Nat) (v : α) :
    (arenaSet l k v).map (fun p => (p.1, f p.2)) =
      arenaSet (l.map (fun p => (p.1, f p.2))) k (f v) := by
  induction l with
  | nil => rfl
  | cons p rest ih =>
    by_cases h : p.1 = k
    · simp [arenaSet, h]
    · simp [arenaSet, h, ih]

theorem eraseFlags_updIflag (s : PyState) (i : NodeId) (b : Bool) :
    eraseFlags (updIflag s i b) = eraseFlags s := by
  unfold updIflag
  cases h : getNode s i with
  | none => rfl
  | some nd =>
    have key : (arenaSet s.nodes i { nd with iflag := b }).map
          (fun p => (p.1, stripNode p.2)) =
        s.nodes.map (fun p => (p.1, stripNode p.2)) := by
      rw [map_arenaSet]
      have h2 : stripNode { nd with iflag := b } = stripNode nd := rfl
      rw [h2]
      apply arenaSet_self
      rw [arenaGet_map]
      unfold getNode at h
      rw [h]
      rfl
    show eraseFlags (setNode s i { nd with iflag := b }) = eraseFlags s
    unfold setNode eraseFlags
    exact congrArg (fun x => { s with nodes := x }) key

theorem getNode_eraseFlags (s : PyState) (i : NodeId) :
    getNode (eraseFlags s) i = (getNode s i).map stripNode := by
  unfold eraseFlags getNode
  simp only
  rw [arenaGet_map]

/-- Any node projection unaffected by `stripNode` is equal on two states
with equal flagless images. -/
theorem proj_of_eraseFlags_eq {α : Type} (f : Node → α)
    (hf : ∀ nd, f (stripNode nd) = f nd) {s s' : PyState}
    (h : eraseFlags s' = eraseFlags s) (i : NodeId) :
    (getNode s' i).map f = (getNode s i).map f := by
  have h1 : (getNode s' i).map stripNode = (getNode s i).map stripNode := by
    have h0 := congrArg (fun st => getNode st i) h
    simpa [getNode_eraseFlags] using h0
  have h2 : ∀ (o : Option Node), (o.map stripNode).map f = o.map f := by
    intro o; cases o <;> simp [hf]
  calc (getNode s' i).map f = ((getNode s' i).map stripNode).map f := (h2 _).symm
    _ = ((getNode s i).map stripNode).map f := by rw [h1]
    _ = (getNode s i).map f := h2 _

theorem entryArena_of_eraseFlags_eq {s s' : PyState}
    (h : eraseFlags s' = eraseFlags s) : s'.entryArena = s.entryArena := by
  have := congrArg PyState.entryArena h
  exact this

theorem classSorted_of_eraseFlags_eq {s s' : PyState}
    (h : eraseFlags s' = eraseFlags s) : s'.classSorted = s.classSorted := by
  have := congrArg PyState.classSorted h
  exact this

theorem eraseFlags_depthLastMark (ks : List NodeId) :
    ∀ s, eraseFlags (depthLastMark s ks).1 = eraseFlags s := by
  induction ks with
  | nil => intro s; rfl
  | cons k ks ih =>
    intro s
    unfold depthLastMark
    by_cases h : getIflag s k
    · simp only [if_pos h]
      exact ih s
    · simp only [if_neg h]
      cases hm : depthLastMark (updIflag s k true) ks with
      | mk s2 rest =>
        have h2 := ih (updIflag s k true)
        rw [hm] at h2
        simpa [h2] using eraseFlags_updIflag s k true

theorem eraseFlags_foldVisit (f : PyState → NodeId → PyState × Option (List NodeId))
    (hf : ∀ s k, eraseFlags (f s k).1 = eraseFlags s) (ks : List NodeId) :
    ∀ s r, eraseFlags (foldVisit f s r ks).1 = eraseFlags s := by
  induction ks with
  | nil => intro s r; rfl
  | cons k ks ih =>
    intro s r
    unfold foldVisit
    cases hm : f s k with
    | mk s1 res =>
      have h1 : eraseFlags s1 = eraseFlags s := by
        have := hf s k; rw [hm] at this; exact this
      cases res with
      | some r2 => simpa [ih s1 (r ++ r2)] using h1
      | none => exact h1

theorem eraseFlags_depthLast (fuel : Nat) :
    ∀ s t, eraseFlags (depthLast fuel s t).1 = eraseFlags s := by
  induction fuel with
  | zero => intro s t; rfl
  | succ fuel ih =>
    intro s t
    rw [depthLast]
    cases hm : depthLastMark s (childVals s t) with
    | mk s1 newly =>
      have h1 : eraseFlags s1 = eraseFlags s := by
        have := eraseFlags_depthLastMark (childVals s t) s
        rw [hm] at this; exact this
      cases hfv : foldVisit (depthLast fuel) s1 [] (childVals s t) with
      | mk s2 rest =>
        have h2 : eraseFlags s2 = eraseFlags s1 := by
          have := eraseFlags_foldVisit (depthLast fuel) ih (childVals s t) s1 []
          rw [hfv] at this; exact this
        cases rest <;> simp [hfv, h2, h1]

theorem eraseFlags_depthFirst (fuel : Nat) :
    ∀ s t, eraseFlags (depthFirst fuel s t).1 = eraseFlags s := by
  induction fuel with
  | zero => intro s t; rfl
  | succ fuel ih =>
    intro s t
    rw [depthFirst]
    by_cases h : getIflag s t
    · simp [h]
    · simp only [if_neg h]
      have h1 : eraseFlags (updIflag s t true) = eraseFlags s :=
        eraseFlags_updIflag s t true
      cases hfv : foldVisit (depthFirst fuel) (updIflag s t true) []
          (childVals (updIflag s t true) t) with
      | mk s2 rest =>
        have h2 : eraseFlags s2 = eraseFlags (updIflag s t true) := by
          have := eraseFlags_foldVisit (depthFirst fuel) ih
            (childVals (updIflag s t true) t) (updIflag s t true) []
          rw [hfv] at this; exact this
        cases rest <;> simp [hfv, h2, h1]

theorem eraseFlags_foldCount (f : PyState → NodeId → PyState × Option Nat)
    (hf : ∀ s k, eraseFlags (f s k).1 = eraseFlags s) (ks : List NodeId) :
    ∀ s c, eraseFlags (foldCount f s c ks).1 = eraseFlags s := by
  induction ks with
  | nil => intro s c; rfl
  | cons k ks ih =>
    intro s c
    unfold foldCount
    cases hm : f s k with
    | mk s1 res =>
      have h1 : eraseFlags s1 = eraseFlags s := by
        have := hf s k; rw [hm] at this; exact this
      cases res with
      | some c2 => simpa [ih s1 (c + c2)] using h1
      | none => exact h1

theorem eraseFlags_setIflagRec (fuel : Nat) :
    ∀ s t v, eraseFlags (setIflagRec fuel s t v).1 = eraseFlags s := by
  induction fuel with
  | zero => intro s t v; rfl
  | succ fuel ih =>
    intro s t v
    rw [setIflagRec]
    by_cases h : getIflag s t = v
    · simp [h]
    · simp only [if_neg h]
      have h1 : eraseFlags (updIflag s t v) = eraseFlags s :=
        eraseFlags_updIflag s t v
      cases hfv : foldCount (fun sIn k => setIflagRec fuel sIn k v)
          (updIflag s t v) 0 (childVals (updIflag s t v) t) with
      | mk s2 cnt =>
        have h2 : eraseFlags s2 = eraseFlags (updIflag s t v) := by
          have := eraseFlags_foldCount (fun sIn k => setIflagRec fuel sIn k v)
            (fun sIn k => ih sIn k v)
            (childVals (updIflag s t v) t) (updIflag s t v) 0
          rw [hfv] at this; exact this
        cases cnt <;> simp [hfv, h2, h1]

theorem eraseFlags_iterInit (fuel : Nat) (s : PyState) (t : NodeId)
    (df inc : Bool) : eraseFlags (iterInit fuel s t df inc).1 = eraseFlags s := by
  unfold iterInit
  by_cases hdf : df = true
  · subst hdf
    simp only [if_pos rfl]
    cases hdep : depthFirst fuel s t with
    | mk s1 rest =>
      have h1 : eraseFlags s1 = eraseFlags s := by
        have := eraseFlags_depthFirst fuel s t; rw [hdep] at this; exact this
      cases rest with
      | none => simpa using h1
      | some sched =>
        by_cases hin : inc = true
        · subst hin
          simp only [if_pos rfl]
          cases hsi : setIflagRec fuel s1 t false with
          | mk s2 cnt =>
            have h2 : eraseFlags s2 = eraseFlags s1 := by
              have := eraseFlags_setIflagRec fuel s1 t false
              rw [hsi] at this; exact this
            cases cnt with
            | none => simpa [hsi] using h2.trans h1
            | some c =>
              by_cases hc : c = sched.length <;> simp [hsi, hc, h2.trans h1]
        · have hin2 : inc = false := by
            cases inc
            · rfl
            · exact absurd rfl hin
          subst hin2
          simp only [Bool.false_eq_true, if_false]
          cases sched with
          | nil => simpa using h1
          | cons a rest2 =>
            cases hsi : setIflagRec fuel s1 t false with
            | mk s2 cnt =>
              have h2 : eraseFlags s2 = eraseFlags s1 := by
                have := eraseFlags_setIflagRec fuel s1 t false
                rw [hsi] at this; exact this
              cases cnt with
              | none => simpa [hsi] using h2.trans h1
              | some c =>
                by_cases hc : c = rest2.length <;> simp [hsi, hc, h2.trans h1]
  · have hdf2 : df = false := by
      cases df
      · rfl
      · exact absurd rfl hdf
    subst hdf2
    simp only [Bool.false_eq_true, if_false]
    have h0 : eraseFlags (updIflag s t true) = eraseFlags s :=
      eraseFlags_updIflag s t true
    cases hdep : depthLast fuel (updIflag s t true) t with
    | mk s1 rest =>
      have h1 : eraseFlags s1 = eraseFlags s := by
        have := eraseFlags_depthLast fuel (updIflag s t true) t
        rw [hdep] at this; exact this.trans h0
      cases rest with
      | none => simpa using h1
      | some r =>
        cases hsi : setIflagRec fuel s1 t false with
        | mk s2 cnt =>
          have h2 : eraseFlags s2 = eraseFlags s1 := by
            have := eraseFlags_setIflagRec fuel s1 t false
            rw [hsi] at this; exact this
          cases cnt with
          | none => simpa [hsi] using h2.trans h1
          | some c =>
            by_cases hc : c = ((if inc = true then [t] else []) ++ r).length
            · simp [hsi, hc, h2.trans h1]
            · simp only [List.length_append] at hc
              simp [hsi, hc, h2.trans h1]

theorem eraseFlags_protoIter (fuel : Nat) (s : PyState) (t : NodeId) :
    eraseFlags (protoIter fuel s t).1 = eraseFlags s := by
  unfold protoIter
  cases hm : iterInit fuel s t false true with
  | mk s1 r =>
    have h1 : eraseFlags s1 = eraseFlags s := by
      have := eraseFlags_iterInit fuel s t false true
      rw [hm] at this; exact this
    cases r <;> simpa using h1

theorem dictGet_dictSet {α : Type} (d : List (String × α)) (k : String) (v : α)
    (j : String) :
    dictGet (dictSet d k v) j = if k = j then some v else dictGet d j := by
  induction d with
  | nil =>
    by_cases h : k = j
    · simp [dictSet, dictGet, h]
    · simp [dictSet, dictGet, h]
  | cons p rest ih =>
    obtain ⟨pk, pv⟩ := p
    simp only [dictSet]
    by_cases h1 : pk = k
    · subst h1
      by_cases h2 : pk = j
      · simp [dictGet, h2]
      · simp [dictGet, h2]
    · simp only [if_neg h1]
      by_cases h2 : pk = j
      · have h3 : ¬ k = j := fun hh => h1 (by rw [hh, h2])
        simp [dictGet, h2, h3]
      · simp [dictGet, h2, ih]

theorem getNode_setNode (s : PyState) (i : NodeId) (nd : Node) (j : NodeId) :
    getNode (setNode s i nd) j = if i = j then some nd else getNode s j := by
  unfold getNode setNode
  simp only
  exact arenaGet_set s.nodes i nd j

theorem loopRed_noEntry {s : PyState} {eid : EntryId} (m : NodeId)
    (rest : List EntryId) (hq : getEntry s eid = none) :
    masterAddchildLoop m s (eid :: rest) = (s, Except.error "NameError") := by
  conv_lhs => rw [masterAddchildLoop]
  rw [hq]

theorem loopRed_entry {s : PyState} {eid : EntryId} {eo : EntryObj} (m : NodeId)
    (rest : List EntryId) (hq : getEntry s eid = some eo) :
    masterAddchildLoop m s (eid :: rest) =
      (match getNode s m with
       | none => (s, Except.error "NameError")
       | some mnd =>
         match dictGet mnd.entries eo.ename with
         | some old =>
           if old ≠ eid then
             (s, Except.error "Exception: MasterCollection.addchild contradictory entries")
           else
             masterAddchildLoop m
               (setNode s m { mnd with entries := dictSet mnd.entries eo.ename eid }) rest
         | none =>
           masterAddchildLoop m
             (setNode s m { mnd with entries := dictSet mnd.entries eo.ename eid }) rest) := by
  conv_lhs => rw [masterAddchildLoop]
  rw [hq]

theorem loopRed_node {s : PyState} {eid : EntryId} {eo : EntryObj} {mnd : Node}
    (m : NodeId) (rest : List EntryId) (hq : getEntry s eid = some eo)
    (hm : getNode s m = some mnd) :
    masterAddchildLoop m s (eid :: rest) =
      (match dictGet mnd.entries eo.ename with
       | some old =>
         if old ≠ eid then
           (s, Except.error "Exception: MasterCollection.addchild contradictory entries")
         else
           masterAddchildLoop m
             (setNode s m { mnd with entries := dictSet mnd.entries eo.ename eid }) rest
       | none =>
         masterAddchildLoop m
           (setNode s m { mnd with entries := dictSet mnd.entries eo.ename eid }) rest) := by
  rw [loopRed_entry m rest hq, hm]

theorem loopRed_conflict {s : PyState} {eid : EntryId} {eo : EntryObj} {mnd : Node}
    {old : EntryId} (m : NodeId) (rest : List EntryId)
    (hq : getEntry s eid = some eo) (hm : getNode s m = some mnd)
    (hd : dictGet mnd.entries eo.ename = some old) (ho : old ≠ eid) :
    masterAddchildLoop m s (eid :: rest) =
      (s, Except.error "Exception: MasterCollection.addchild contradictory entries") := by
  rw [loopRed_node m rest hq hm, hd]
  simp [ho]

theorem loopRed_write {s : PyState} {eid : EntryId} {eo : EntryObj} {mnd : Node}
    (m : NodeId) (rest : List EntryId) (hq : getEntry s eid = some eo)
    (hm : getNode s m = some mnd)
    (hd : dictGet mnd.entries eo.ename = none ∨ dictGet mnd.entries eo.ename = some eid) :
    masterAddchildLoop m s (eid :: rest) =
      masterAddchildLoop m
        (setNode s m { mnd with entries := dictSet mnd.entries eo.ename eid }) rest := by
  rw [loopRed_node m rest hq hm]
  rcases hd with hd | hd
  · rw [hd]
  · rw [hd]
    simp

/-- State s2 preserves the non-flag, non-entries skeleton of s1: same
entry arena, same class-level sort cache, and same children, master and
instance-cache fields on every node. -/
def FramePres (s1 s2 : PyState) : Prop :=
  s2.entryArena = s1.entryArena ∧ s2.classSorted = s1.classSorted ∧
  ∀ i, (getNode s2 i).map Node.children = (getNode s1 i).map Node.children
    ∧ (getNode s2 i).map Node.master = (getNode s1 i).map Node.master
    ∧ (getNode s2 i).map Node.sortedInst = (getNode s1 i).map Node.sortedInst
    ∧ (getNode s2 i).map Node.kind = (getNode s1 i).map Node.kind
    ∧ (getNode s2 i).map Node.cname = (getNode s1 i).map Node.cname

theorem framePres_refl (s : PyState) : FramePres s s :=
  ⟨rfl, rfl, fun _ => ⟨rfl, rfl, rfl, rfl, rfl⟩⟩

theorem framePres_trans {a b c : PyState} (h1 : FramePres a b)
    (h2 : FramePres b c) : FramePres a c := by
  obtain ⟨e1, c1, n1⟩ := h1
  obtain ⟨e2, c2, n2⟩ := h2
  refine ⟨e2.trans e1, c2.trans c1, fun i => ?_⟩
  obtain ⟨x1, y1, z1, k1, q1⟩ := n1 i
  obtain ⟨x2, y2, z2, k2, q2⟩ := n2 i
  exact ⟨x2.trans x1, y2.trans y1, z2.trans z1, k2.trans k1, q2.trans q1⟩

theorem framePres_of_eraseFlags {s s' : PyState}
    (h : eraseFlags s' = eraseFlags s) : FramePres s s' := by
  refine ⟨entryArena_of_eraseFlags_eq h, classSorted_of_eraseFlags_eq h, fun i => ?_⟩
  exact ⟨proj_of_eraseFlags_eq Node.children (fun _ => rfl) h i,
    proj_of_eraseFlags_eq Node.master (fun _ => rfl) h i,
    proj_of_eraseFlags_eq Node.sortedInst (fun _ => rfl) h i,
    proj_of_eraseFlags_eq Node.kind (fun _ => rfl) h i,
    proj_of_eraseFlags_eq Node.cname (fun _ => rfl) h i⟩

theorem framePres_setEntries {s : PyState} {m : NodeId} {mnd : Node}
    (hm : getNode s m = some mnd) (E : List (String × EntryId)) :
    FramePres s (setNode s m { mnd with entries := E }) := by
  refine ⟨rfl, rfl, fun i => ?_⟩
  rw [getNode_setNode]
  by_cases hi : m = i
  · subst hi
    rw [if_pos rfl, hm]
    exact ⟨rfl, rfl, rfl, rfl, rfl⟩
  · rw [if_neg hi]
    exact ⟨rfl, rfl, rfl, rfl, rfl⟩

theorem masterAddchildLoop_frame (m : NodeId) (L : List EntryId) :
    ∀ s, FramePres s (masterAddchildLoop m s L).1 := by
  induction L with
  | nil => intro s; exact framePres_refl s
  | cons eid rest ih =>
    intro s
    cases hq : getEntry s eid with
    | none => rw [loopRed_noEntry m rest hq]; exact framePres_refl s
    | some eo =>
      cases hm : getNode s m with
      | none => rw [loopRed_entry m rest hq, hm]; exact framePres_refl s
      | some mnd =>
        cases hd : dictGet mnd.entries eo.ename with
        | some old =>
          by_cases ho : old = eid
          · rw [loopRed_write m rest hq hm (Or.inr (ho ▸ hd))]
            exact framePres_trans (framePres_setEntries hm _) (ih _)
          · rw [loopRed_conflict m rest hq hm hd ho]
            exact framePres_refl s
        | none =>
          rw [loopRed_write m rest hq hm (Or.inl hd)]
          exact framePres_trans (framePres_setEntries hm _) (ih _)

theorem masterAddchildLoop_mono (m : NodeId) (L : List EntryId) :
    ∀ s s2 u, masterAddchildLoop m s L = (s2, Except.ok u) →
    ∀ nm v, (getNode s m).bind (fun nd => dictGet nd.entries nm) = some v →
      (getNode s2 m).bind (fun nd => dictGet nd.entries nm) = some v := by
  induction L with
  | nil =>
    intro s s2 u h nm v hv
    unfold masterAddchildLoop at h
    cases h
    exact hv
  | cons eid rest ih =>
    intro s s2 u h nm v hv
    have hnext : ∀ (eo : EntryObj) (mnd : Node), getNode s m = some mnd →
        (∀ w, dictGet mnd.entries eo.ename = some w → w = eid) →
        masterAddchildLoop m
          (setNode s m { mnd with entries := dictSet mnd.entries eo.ename eid }) rest =
          (s2, Except.ok u) →
        (getNode s2 m).bind (fun nd => dictGet nd.entries nm) = some v := by
      intro eo mnd hm hold hrun
      rw [hm] at hv
      simp only [Option.bind] at hv
      refine ih _ s2 u hrun nm v ?_
      rw [getNode_setNode, if_pos rfl]
      simp only [Option.bind]
      rw [dictGet_dictSet]
      by_cases hnm : eo.ename = nm
      · subst hnm
        rw [if_pos rfl]
        rw [hold v hv]
      · rw [if_neg hnm]
        exact hv
    cases hq : getEntry s eid with
    | none => rw [loopRed_noEntry m rest hq] at h; cases h
    | some eo =>
      cases hm : getNode s m with
      | none => rw [loopRed_entry m rest hq, hm] at h; cases h
      | some mnd =>
        cases hd : dictGet mnd.entries eo.ename with
        | some old =>
          by_cases ho : old = eid
          · rw [loopRed_write m rest hq hm (Or.inr (ho ▸ hd))] at h
            exact hnext eo mnd hm (fun w hw => by rw [hd] at hw; cases hw; exact ho) h
          · rw [loopRed_conflict m rest hq hm hd ho] at h
            cases h
        | none =>
          rw [loopRed_write m rest hq hm (Or.inl hd)] at h
          exact hnext eo mnd hm (fun w hw => by rw [hd] at hw; cases hw) h

theorem masterAddchildLoop_entryArena (m : NodeId) (L : List EntryId) :
    ∀ s, (masterAddchildLoop m s L).1.entryArena = s.entryArena :=
  fun s => (masterAddchildLoop_frame m L s).1

theorem masterAddchildLoop_mem (m : NodeId) (L : List EntryId) :
    ∀ s s2 u, masterAddchildLoop m s L = (s2, Except.ok u) →
    ∀ eid ∈ L, ∀ eo, getEntry s eid = some eo →
      (getNode s2 m).bind (fun nd => dictGet nd.entries eo.ename) = some eid := by
  induction L with
  | nil => intro s s2 u h eid hmem; cases hmem
  | cons eid0 rest ih =>
    intro s s2 u h eid hmem eo heo
    have hstep : ∀ (eo0 : EntryObj) (mnd : Node),
        getEntry s eid0 = some eo0 → getNode s m = some mnd →
        masterAddchildLoop m
          (setNode s m { mnd with entries := dictSet mnd.entries eo0.ename eid0 }) rest =
          (s2, Except.ok u) →
        (getNode s2 m).bind (fun nd => dictGet nd.entries eo.ename) = some eid := by
      intro eo0 mnd heq0 hm hrun
      rcases List.mem_cons.mp hmem with hh | hh
      · subst hh
        have heq : eo0 = eo := by rw [heq0] at heo; cases heo; rfl
        subst heq
        refine masterAddchildLoop_mono m rest _ s2 u hrun eo0.ename eid ?_
        rw [getNode_setNode, if_pos rfl]
        simp only [Option.bind]
        rw [dictGet_dictSet, if_pos rfl]
      · have heo1 : getEntry
            (setNode s m { mnd with entries := dictSet mnd.entries eo0.ename eid0 }) eid =
            some eo := heo
        exact ih _ s2 u hrun eid hh eo heo1
    cases hq : getEntry s eid0 with
    | none => rw [loopRed_noEntry m rest hq] at h; cases h
    | some eo0 =>
      cases hm : getNode s m with
      | none => rw [loopRed_entry m rest hq, hm] at h; cases h
      | some mnd =>
        cases hd : dictGet mnd.entries eo0.ename with
        | some old =>
          by_cases ho : old = eid0
          · rw [loopRed_write m rest hq hm (Or.inr (ho ▸ hd))] at h
            exact hstep eo0 mnd hq hm h
          · rw [loopRed_conflict m rest hq hm hd ho] at h
            cases h
        | none =>
          rw [loopRed_write m rest hq hm (Or.inl hd)] at h
          exact hstep eo0 mnd hq hm h

theorem masterAddchild_frame (fuel : Nat) (s : PyState) (m c : NodeId) :
    FramePres s (masterAddchild fuel s m c).1 := by
  unfold masterAddchild
  cases hc : getNode s c with
  | none => exact framePres_refl s
  | some cnd =>
    simp only
    by_cases hk : cnd.kind ≠ NodeKind.collection
    · rw [if_pos hk]; exact framePres_refl s
    · rw [if_neg hk]
      by_cases hmb : (match cnd.master with
          | some cm => decide (cm ≠ m)
          | none => false) = true
      · rw [if_pos hmb]; exact framePres_refl s
      · rw [if_neg hmb]
        cases hm : getNode s m with
        | none => exact framePres_refl s
        | some mnd =>
          simp only
          by_cases hch : (dictGet mnd.children cnd.cname).isSome = true
          · rw [if_pos hch]; exact framePres_refl s
          · rw [if_neg hch]
            cases hiter : protoIter fuel s c with
            | mk s1 r =>
              have h1 : eraseFlags s1 = eraseFlags s := by
                have h0 := eraseFlags_protoIter fuel s c
                rw [hiter] at h0
                exact h0
              cases r with
              | error e => exact framePres_of_eraseFlags h1
              | ok eids =>
                exact framePres_trans (framePres_of_eraseFlags h1)
                  (masterAddchildLoop_frame m eids s1)

theorem masterAddchild_precheck (fuel : Nat) (s : PyState) (m c : NodeId)
    (mnd cnd : Node) (hm : getNode s m = some mnd) (hc : getNode s c = some cnd)
    (hbad : cnd.kind ≠ NodeKind.collection
      ∨ (∃ cm, cnd.master = some cm ∧ cm ≠ m)
      ∨ (dictGet mnd.children cnd.cname).isSome = true) :
    (masterAddchild fuel s m c).1 = s := by
  unfold masterAddchild
  simp only [hc]
  by_cases hk : cnd.kind = NodeKind.collection
  · rw [if_neg (by simp [hk])]
    by_cases hmb : (match cnd.master with
        | some cm => decide (cm ≠ m)
        | none => false) = true
    · rw [if_pos hmb]
    · rw [if_neg hmb]
      simp only [hm]
      by_cases hch : (dictGet mnd.children cnd.cname).isSome = true
      · rw [if_pos hch]
      · exfalso
        rcases hbad with hb | ⟨cm, hcm, hne⟩ | hb
        · exact hb hk
        · exact hmb (by rw [hcm]; simp [hne])
        · exact hch hb
  · rw [if_pos (by simp [hk])]

theorem masterAddchild_success (fuel : Nat) (s : PyState) (m c : NodeId)
    (s1 : PyState) (L : List EntryId)
    (hiter : protoIter fuel s c = (s1, Except.ok L))
    (s2 : PyState) (u : Unit)
    (hrun : masterAddchild fuel s m c = (s2, Except.ok u)) :
    ∀ eid ∈ L, ∀ eo, getEntry s eid = some eo →
      (getNode s2 m).bind (fun nd => dictGet nd.entries eo.ename) = some eid := by
  intro eid hmem eo heo
  unfold masterAddchild at hrun
  cases hc : getNode s c with
  | none => rw [hc] at hrun; cases hrun
  | some cnd =>
    simp only [hc] at hrun
    by_cases hk : cnd.kind ≠ NodeKind.collection
    · rw [if_pos hk] at hrun; cases hrun
    · rw [if_neg hk] at hrun
      by_cases hmb : (match cnd.master with
          | some cm => decide (cm ≠ m)
          | none => false) = true
      · rw [if_pos hmb] at hrun; cases hrun
      · rw [if_neg hmb] at hrun
        cases hm : getNode s m with
        | none => simp only [hm] at hrun; cases hrun
        | some mnd =>
          simp only [hm] at hrun
          by_cases hch : (dictGet mnd.children cnd.cname).isSome = true
          · rw [if_pos hch] at hrun; cases hrun
          · rw [if_neg hch] at hrun
            rw [hiter] at hrun
            have harena : s1.entryArena = s.entryArena := by
              have h0 := eraseFlags_protoIter fuel s c
              rw [hiter] at h0
              exact entryArena_of_eraseFlags_eq h0
            have heo1 : getEntry s1 eid = some eo := by
              unfold getEntry at heo ⊢
              rw [harena]
              exact heo
            exact masterAddchildLoop_mem m L s1 s2 u hrun eid hmem eo heo1

theorem addchildOp_eq_master (fuel : Nat) (s : PyState) (m c : NodeId)
    (mnd : Node) (hm : getNode s m = some mnd)
    (hkind : mnd.kind = NodeKind.masterCollection) :
    addchildOp fuel s m c = masterAddchild fuel s m c := by
  unfold addchildOp
  simp only [hm]
  rw [if_pos hkind]

/-- A master holding entry 0 under the name n2, and a standalone collection
holding entry 1 (named n1) followed by entry 2 (also named n2, a different
object than entry 0). -/
def c3State : PyState :=
  { nodes := [(0, { kind := NodeKind.masterCollection, cname := "main",
                    entries := [("n2", 0)], children := [], master := some 0,
                    iflag := false, sortedInst := none }),
              (1, { kind := NodeKind.collection, cname := "c",
                    entries := [("n1", 1), ("n2", 2)], children := [],
                    master := none, iflag := false, sortedInst := none })],
    entryArena := [(0, { ename := "n2" }), (1, { ename := "n1" }),
                   (2, { ename := "n2" })],
    classSorted := [] }

/-- The state `MasterCollection.addchild` leaves behind when it raises on
the conflict over n2: entry 1 has already been written into the flat map. -/
def c3StateAfter : PyState :=
  { nodes := [(0, { kind := NodeKind.masterCollection, cname := "main",
                    entries := [("n2", 0), ("n1", 1)], children := [],
                    master := some 0, iflag := false, sortedInst := none }),
              (1, { kind := NodeKind.collection, cname := "c",
                    entries := [("n1", 1), ("n2", 2)], children := [],
                    master := none, iflag := false, sortedInst := none })],
    entryArena := [(0, { ename := "n2" }), (1, { ename := "n1" }),
                   (2, { ename := "n2" })],
    classSorted := [] }

/-- Claim C3 counterexample: `addchild` on a Master is not all-or-nothing.
Adding the collection whose entries are n1 (fresh) and then n2 (conflicting
with a different existing entry of the same name) raises the conflict
exception, but the Master entry map has already been mutated: n1 is in the
flat map of the resulting state, which therefore differs from the initial
state. -/
theorem masterAddchild_not_atomic :
    addchildOp 9 c3State 0 1 =
      (c3StateAfter,
        Except.error "Exception: MasterCollection.addchild contradictory entries")
    ∧ c3StateAfter ≠ c3State := by
  exact ⟨rfl, by decide⟩

/-- Claim C3 (amended): `MasterCollection.addchild` checks the child type,
master association and collection-name collision before any mutation, and
a failure of any of those checks leaves the state unchanged; but the
per-entry conflict check is interleaved with the mutation, so a conflict
discovered partway leaves the earlier entries registered (the operation is
not all-or-nothing, see the counterexample).  On success every entry
reachable from the child is registered in the Master flat entry map under
its name; however — regardless of success or failure — no children map of
any node is ever modified, no master pointer is ever assigned, and no sort
cache is touched: the child is never actually attached as a child of the
Master. -/
theorem masterAddchild_behavior (fuel : Nat) (s : PyState) (m c : NodeId)
    (mnd : Node) (hm : getNode s m = some mnd)
    (hkind : mnd.kind = NodeKind.masterCollection) :
    FramePres s (addchildOp fuel s m c).1
    ∧ (∀ cnd, getNode s c = some cnd →
        (cnd.kind ≠ NodeKind.collection
         ∨ (∃ cm, cnd.master = some cm ∧ cm ≠ m)
         ∨ (dictGet mnd.children cnd.cname).isSome = true) →
        (addchildOp fuel s m c).1 = s)
    ∧ (∀ s1 L, protoIter fuel s c = (s1, Except.ok L) →
        ∀ s2 u, addchildOp fuel s m c = (s2, Except.ok u) →
        ∀ eid ∈ L, ∀ eo, getEntry s eid = some eo →
          (getNode s2 m).bind (fun nd => dictGet nd.entries eo.ename) = some eid) := by
  have hdis := addchildOp_eq_master fuel s m c mnd hm hkind
  refine ⟨?_, ?_, ?_⟩
  · rw [hdis]
    exact masterAddchild_frame fuel s m c
  · intro cnd hc hbad
    rw [hdis]
    exact masterAddchild_precheck fuel s m c mnd cnd hm hc hbad
  · intro s1 L hiter s2 u hrun
    rw [hdis] at hrun
    exact masterAddchild_success fuel s m c s1 L hiter s2 u hrun

/-- The Master node of the witness state for the amended Claim C3. -/
def c3okMaster : Node :=
  { kind := NodeKind.masterCollection, cname := "main", entries := [],
    children := [], master := some 0, iflag := false, sortedInst := none }

/-- An empty master and a standalone collection holding one fresh entry. -/
def c3okState : PyState :=
  { nodes := [(0, c3okMaster),
              (1, { kind := NodeKind.collection, cname := "c",
                    entries := [("n1", 0)], children := [], master := none,
                    iflag := false, sortedInst := none })],
    entryArena := [(0, { ename := "n1" })],
    classSorted := [] }

/-- Witness for the amended Claim C3 theorem at a concrete input. -/
theorem masterAddchild_behavior_witness :
    getNode c3okState 0 = some c3okMaster
    ∧ c3okMaster.kind = NodeKind.masterCollection
    ∧ (FramePres c3okState (addchildOp 9 c3okState 0 1).1
      ∧ (∀ cnd, getNode c3okState 1 = some cnd →
          (cnd.kind ≠ NodeKind.collection
           ∨ (∃ cm, cnd.master = some cm ∧ cm ≠ 0)
           ∨ (dictGet c3okMaster.children cnd.cname).isSome = true) →
          (addchildOp 9 c3okState 0 1).1 = c3okState)
      ∧ (∀ s1 L, protoIter 9 c3okState 1 = (s1, Except.ok L) →
          ∀ s2 u, addchildOp 9 c3okState 0 1 = (s2, Except.ok u) →
          ∀ eid ∈ L, ∀ eo, getEntry c3okState eid = some eo →
            (getNode s2 0).bind (fun nd => dictGet nd.entries eo.ename) = some eid)) :=
  ⟨rfl, rfl, masterAddchild_behavior 9 c3okState 0 1 c3okMaster rfl rfl⟩

/-! ## The Master flat-map invariant under operation sequences -/

/-- State s2 has the same graph shape as s1: every node keeps its class,
its children dict and its master pointer. -/
def GraphShapePres (s1 s2 : PyState) : Prop :=
  ∀ i, (getNode s2 i).map Node.kind = (getNode s1 i).map Node.kind
    ∧ (getNode s2 i).map Node.children = (getNode s1 i).map Node.children
    ∧ (getNode s2 i).map Node.master = (getNode s1 i).map Node.master

theorem shape_refl (s : PyState) : GraphShapePres s s :=
  fun _ => ⟨rfl, rfl, rfl⟩

theorem shape_trans {a b c : PyState} (h1 : GraphShapePres a b)
    (h2 : GraphShapePres b c) : GraphShapePres a c := by
  intro i
  obtain ⟨x1, y1, z1⟩ := h1 i
  obtain ⟨x2, y2, z2⟩ := h2 i
  exact ⟨x2.trans x1, y2.trans y1, z2.trans z1⟩

theorem shape_of_framePres {s s' : PyState} (h : FramePres s s') :
    GraphShapePres s s' := by
  intro i
  obtain ⟨_, _, hn⟩ := h
  obtain ⟨hc, hm, _, hk, _⟩ := hn i
  exact ⟨hk, hc, hm⟩

/-- Replacing a node with one of the same class, children and master
preserves the graph shape. -/
theorem shape_setNode {s : PyState} {i : NodeId} {nd nd' : Node}
    (h : getNode s i = some nd) (hk : nd'.kind = nd.kind)
    (hc : nd'.children = nd.children) (hm : nd'.master = nd.master) :
    GraphShapePres s (setNode s i nd') := by
  intro j
  rw [getNode_setNode]
  by_cases hij : i = j
  · subst hij
    rw [if_pos rfl, h]
    exact ⟨congrArg some hk, congrArg some hc, congrArg some hm⟩
  · rw [if_neg hij]
    exact ⟨rfl, rfl, rfl⟩

/-- The structural invariant the graph operations maintain: every
MasterCollection node has an empty children dict, and every plain
collection has no master. -/
def Inv (s : PyState) : Prop :=
  ∀ i nd, getNode s i = some nd →
    (nd.kind = NodeKind.masterCollection → nd.children = [])
    ∧ (nd.kind ≠ NodeKind.masterCollection → nd.master = none)

theorem inv_of_shape {s s' : PyState} (hs : GraphShapePres s s')
    (h : Inv s) : Inv s' := by
  intro i nd' hga
  obtain ⟨hk, hc, hm⟩ := hs i
  rw [hga] at hk hc hm
  cases hg : getNode s i with
  | none => rw [hg] at hk; cases hk
  | some nd =>
    rw [hg] at hk hc hm
    obtain ⟨h1, h2⟩ := h i nd hg
    have hk2 : nd'.kind = nd.kind := by simpa using hk
    have hc2 : nd'.children = nd.children := by simpa using hc
    have hm2 : nd'.master = nd.master := by simpa using hm
    constructor
    · intro hmk
      rw [hc2]
      exact h1 (by rw [← hk2]; exact hmk)
    · intro hmk
      rw [hm2]
      exact h2 (by rw [← hk2]; exact hmk)

theorem mergeOp_fst (s : PyState) (a b : NodeId) (ow : Bool) :
    (mergeOp s a b ow).1 = s := by
  unfold mergeOp
  cases h1 : getNode s a with
  | none =>
    cases h2 : getNode s b <;> rfl
  | some and1 =>
    cases h2 : getNode s b with
    | none => rfl
    | some bnd =>
      simp only
      by_cases hk1 : and1.kind ≠ NodeKind.masterCollection
      · rw [if_pos hk1]
      · rw [if_neg hk1]
        by_cases hk2 : bnd.kind ≠ NodeKind.masterCollection
        · rw [if_pos hk2]
        · rw [if_neg hk2]
          split <;> rfl

theorem masterAdd_shape (s : PyState) (m : NodeId) (e : EntryId) :
    GraphShapePres s (masterAdd s m e).1 := by
  unfold masterAdd
  cases hn : getNode s m with
  | none => cases he : getEntry s e <;> exact shape_refl s
  | some nd =>
    cases he : getEntry s e with
    | none => exact shape_refl s
    | some eo =>
      simp only
      have hproceed : GraphShapePres s
          ((let s1 := setNode s m
              { nd with entries := dictSet nd.entries eo.ename e,
                        sortedInst := some [] }
            match getEntry s1 e with
            | some eo1 =>
              (setEntry s1 e { eo1 with colls := eo1.colls ++ [m] }, Except.ok ())
            | none => (s1, Except.ok ())) :
            PyState × Except String Unit).1 := by
        have hs1 : GraphShapePres s (setNode s m
            { nd with entries := dictSet nd.entries eo.ename e,
                      sortedInst := some [] }) :=
          shape_setNode hn rfl rfl rfl
        cases hge : getEntry (setNode s m
            { nd with entries := dictSet nd.entries eo.ename e,
                      sortedInst := some [] }) e with
        | none => simpa [hge] using hs1
        | some eo1 =>
          simp only [hge]
          have : ∀ (s2 : PyState) (eo2 : EntryObj) (i : EntryId),
              GraphShapePres s2 (setEntry s2 i eo2) := by
            intro s2 eo2 i j
            exact ⟨rfl, rfl, rfl⟩
          exact shape_trans hs1 (this _ _ _)
      cases hd : dictGet nd.entries eo.ename with
      | some t =>
        dsimp only
        by_cases ht : t = e
        · rw [if_neg (by simp [ht])]
          exact hproceed
        · rw [if_pos (by exact ht)]
          exact shape_refl s
      | none =>
        exact hproceed

theorem addOp_shape (fuel : Nat) :
    ∀ (s : PyState) (c : NodeId) (e : EntryId),
      GraphShapePres s (addOp fuel s c e).1 := by
  induction fuel with
  | zero => intro s c e; exact shape_refl s
  | succ fuel ih =>
    intro s c e
    unfold addOp
    cases hn : getNode s c with
    | none => exact shape_refl s
    | some nd =>
      simp only
      by_cases hk : nd.kind = NodeKind.masterCollection
      · rw [if_pos hk]
        exact masterAdd_shape s c e
      · rw [if_neg hk]
        have hfinish : ∀ (sIn : PyState), GraphShapePres s sIn →
            GraphShapePres s
              ((match getNode sIn c, getEntry sIn e with
                | some nd1, some eo1 =>
                  (setNode sIn c
                    { nd1 with entries := dictSet nd1.entries eo1.ename e,
                               sortedInst := some [] }, Except.ok ())
                | _, _ => (sIn, Except.error "NameError")) :
                PyState × Except String Unit).1 := by
          intro sIn hIn
          cases hn1 : getNode sIn c with
          | none => cases he1 : getEntry sIn e <;> simpa [hn1, he1] using hIn
          | some nd1 =>
            cases he1 : getEntry sIn e with
            | none => simpa [hn1, he1] using hIn
            | some eo1 =>
              simp only [hn1, he1]
              exact shape_trans hIn (shape_setNode hn1 rfl rfl rfl)
        cases hmm : nd.master with
        | none =>
          cases he : getEntry s e with
          | none => exact shape_refl s
          | some eo =>
            simp only
            cases hd : dictGet nd.entries eo.ename with
            | some t =>
              dsimp only
              by_cases ht : t = e
              · rw [if_neg (by simp [ht])]
                have hf := hfinish s (shape_refl s)
                rw [he] at hf
                exact hf
              · rw [if_pos (by exact ht)]
                exact shape_refl s
            | none =>
              have hf := hfinish s (shape_refl s)
              rw [he] at hf
              exact hf
        | some m =>
          dsimp only
          cases hrec : addOp fuel s m e with
          | mk s1 r =>
            have h1 : GraphShapePres s s1 := by
              have h0 := ih s m e
              rw [hrec] at h0
              exact h0
            cases r with
            | error err =>
              dsimp only
              exact h1
            | ok _ =>
              dsimp only
              exact hfinish s1 h1

theorem eraseFlags_getchildOp (fuel : Nat) (s : PyState) (t : NodeId)
    (cname : String) : eraseFlags (getchildOp fuel s t cname).1 = eraseFlags s := by
  unfold getchildOp
  cases hm : iterInit fuel s t false true with
  | mk s1 r =>
    have h1 : eraseFlags s1 = eraseFlags s := by
      have h0 := eraseFlags_iterInit fuel s t false true
      rw [hm] at h0; exact h0
    cases r <;> simpa using h1

theorem inv_setNode_masterNone {s : PyState} (hInv : Inv s) (c : NodeId)
    (cnd2 : Node) (hc2 : getNode s c = some cnd2) (mv : Option NodeId)
    (hmv : mv = none) :
    Inv (setNode s c { cnd2 with master := mv }) := by
  subst hmv
  intro i nd hga
  rw [getNode_setNode] at hga
  by_cases hic : c = i
  · rw [if_pos hic] at hga
    injection hga with hga
    subst hga
    obtain ⟨h1, _⟩ := hInv c cnd2 hc2
    exact ⟨fun hmk => h1 hmk, fun _ => rfl⟩
  · rw [if_neg hic] at hga
    exact hInv i nd hga

theorem inv_protoAddchild (fuel : Nat) (s : PyState) (p c : NodeId)
    (pnd : Node) (hp : getNode s p = some pnd)
    (hpk : pnd.kind ≠ NodeKind.masterCollection) (hInv : Inv s) :
    Inv (protoAddchild fuel s p c).1 := by
  have hpm0 : pnd.master = none := (hInv p pnd hp).2 hpk
  unfold protoAddchild
  rw [hp]
  cases hc : getNode s c with
  | none => exact hInv
  | some cnd =>
    dsimp only
    by_cases hck : cnd.kind = NodeKind.masterCollection
    · rw [if_pos hck]
      exact hInv
    · rw [if_neg hck]
      cases hcm : cnd.master with
      | some cm =>
        rw [hpm0]
        exact hInv
      | none =>
        dsimp only
        cases hgc : getchildOp fuel s p cnd.cname with
        | mk s1 r =>
          have hfr : FramePres s s1 := by
            refine framePres_of_eraseFlags ?_
            have h0 := eraseFlags_getchildOp fuel s p cnd.cname
            rw [hgc] at h0
            exact h0
          have hInv1 : Inv s1 := inv_of_shape (shape_of_framePres hfr) hInv
          cases r with
          | error e => exact hInv1
          | ok found =>
            cases found with
            | some x => exact hInv1
            | none =>
              dsimp only
              cases hp1 : getNode s1 p with
              | none => cases hc1 : getNode s1 c <;> exact hInv1
              | some pnd1 =>
                cases hc1 : getNode s1 c with
                | none => exact hInv1
                | some cnd1 =>
                  dsimp only
                  obtain ⟨_, _, hfn⟩ := hfr
                  have hkp : pnd1.kind = pnd.kind := by
                    obtain ⟨_, _, _, hk, _⟩ := hfn p
                    rw [hp1, hp] at hk
                    simpa using hk
                  have hmp : pnd1.master = none := by
                    obtain ⟨_, hm2, _, _, _⟩ := hfn p
                    rw [hp1, hp] at hm2
                    simp only [Option.map] at hm2
                    injection hm2 with hm2
                    rw [hm2, hpm0]
                  have hInv2 : Inv (setNode s1 p
                      { pnd1 with children := dictSet pnd1.children cnd1.cname c }) := by
                    intro i nd hga
                    rw [getNode_setNode] at hga
                    by_cases hip : p = i
                    · rw [if_pos hip] at hga
                      injection hga with hga
                      subst hga
                      constructor
                      · intro hmk
                        exact absurd (hkp ▸ hmk) hpk
                      · intro _
                        exact hmp
                    · rw [if_neg hip] at hga
                      exact hInv1 i nd hga
                  cases hs2c : getNode (setNode s1 p
                      { pnd1 with children := dictSet pnd1.children cnd1.cname c }) c with
                  | none => exact hInv2
                  | some cnd2 =>
                    dsimp only
                    exact inv_setNode_masterNone hInv2 c cnd2 hs2c pnd1.master hmp

theorem inv_addchildOp (fuel : Nat) (s : PyState) (p c : NodeId)
    (hInv : Inv s) : Inv (addchildOp fuel s p c).1 := by
  unfold addchildOp
  cases hp : getNode s p with
  | none => exact hInv
  | some pnd =>
    dsimp only
    by_cases hk : pnd.kind = NodeKind.masterCollection
    · rw [if_pos hk]
      exact inv_of_shape (shape_of_framePres (masterAddchild_frame fuel s p c)) hInv
    · rw [if_neg hk]
      exact inv_protoAddchild fuel s p c pnd hp hk hInv

/-- The operations of Claim C4 together with the allocations that scripts
perform to build a graph: creating entries, collections and masters, and
the mutating calls add, addchild and merge. -/
inductive GOp where
  | newEntry (ename : String)
  | newCollection (cname : String) (sub : Bool)
  | newMaster
  | addEntry (c : NodeId) (e : EntryId)
  | addChild (p c : NodeId)
  | mergeM (a b : NodeId) (overwrite : Bool)

/-- Run one operation: an exception leaves the partially mutated state in
place, exactly as a caller that catches the Python exception observes. -/
def applyOp (fuel : Nat) (s : PyState) : GOp → PyState
  | GOp.newEntry nm =>
    let eo : EntryObj := { ename := nm }
    { s with entryArena := arenaSet s.entryArena s.entryArena.length eo }
  | GOp.newCollection nm sub =>
    let nd : Node :=
      { kind := if sub then NodeKind.subCollection else NodeKind.collection,
        cname := nm, entries := [], children := [], master := none,
        iflag := false, sortedInst := none }
    { s with nodes := arenaSet s.nodes s.nodes.length nd }
  | GOp.newMaster =>
    let nd : Node :=
      { kind := NodeKind.masterCollection, cname := "main", entries := [],
        children := [], master := some s.nodes.length, iflag := false,
        sortedInst := none }
    { s with nodes := arenaSet s.nodes s.nodes.length nd }
  | GOp.addEntry c e => (addOp fuel s c e).1
  | GOp.addChild p c => (addchildOp fuel s p c).1
  | GOp.mergeM a b ow => (mergeOp s a b ow).1

/-- The graph `MasterCollection()` starts from: one master that is its own
master, nothing else. -/
def freshMasterState : PyState :=
  { nodes := [(0, { kind := NodeKind.masterCollection, cname := "main",
                    entries := [], children := [], master := some 0,
                    iflag := false, sortedInst := none })],
    entryArena := [], classSorted := [] }

/-- Run a whole operation sequence from the fresh master. -/
def runOps (fuel : Nat) (ops : List GOp) : PyState :=
  ops.foldl (applyOp fuel) freshMasterState

theorem inv_applyOp (fuel : Nat) (s : PyState) (op : GOp) (hInv : Inv s) :
    Inv (applyOp fuel s op) := by
  cases op with
  | newEntry nm =>
    intro i nd hga
    exact hInv i nd hga
  | newCollection nm sub =>
    intro i nd hga
    unfold applyOp getNode at hga
    simp only at hga
    rw [arenaGet_set] at hga
    by_cases hL : s.nodes.length = i
    · rw [if_pos hL] at hga
      injection hga with hga
      subst hga
      constructor
      · intro hmk
        cases sub <;> simp at hmk
      · intro _
        rfl
    · rw [if_neg hL] at hga
      exact hInv i nd hga
  | newMaster =>
    intro i nd hga
    unfold applyOp getNode at hga
    simp only at hga
    rw [arenaGet_set] at hga
    by_cases hL : s.nodes.length = i
    · rw [if_pos hL] at hga
      injection hga with hga
      subst hga
      exact ⟨fun _ => rfl, fun hmk => absurd rfl hmk⟩
    · rw [if_neg hL] at hga
      exact hInv i nd hga
  | addEntry c e =>
    exact inv_of_shape (addOp_shape fuel s c e) hInv
  | addChild p c =>
    exact inv_addchildOp fuel s p c hInv
  | mergeM a b ow =>
    rw [show applyOp fuel s (GOp.mergeM a b ow) = (mergeOp s a b ow).1 from rfl,
      mergeOp_fst]
    exact hInv

theorem inv_fresh : Inv freshMasterState := by
  intro i nd hga
  unfold freshMasterState getNode arenaGet at hga
  by_cases h0 : (0 : Nat) = i
  · rw [if_pos h0] at hga
    injection hga with hga
    subst hga
    exact ⟨fun _ => rfl, fun hmk => absurd rfl hmk⟩
  · rw [if_neg h0] at hga
    cases hga

theorem inv_runOps (fuel : Nat) (ops : List GOp) : Inv (runOps fuel ops) := by
  have aux : ∀ (l : List GOp) (s : PyState), Inv s →
      Inv (l.foldl (applyOp fuel) s) := by
    intro l
    induction l with
    | nil => intro s h; exact h
    | cons op rest ih =>
      intro s h
      exact ih (applyOp fuel s op) (inv_applyOp fuel s op h)
  exact aux ops freshMasterState inv_fresh

/-- One breadth step of reachability through the children dicts. -/
def reachStep (s : PyState) (acc : List NodeId) : List NodeId :=
  ((acc.map (childVals s)).flatten).filter (fun j => decide (j ∉ acc))

/-- Bounded closure of reachability through any descendant path, starting
from the given roots. -/
def reachable (s : PyState) : Nat → List NodeId → List NodeId
  | 0, acc => acc
  | f + 1, acc =>
    match reachStep s acc with
    | [] => acc
    | nxt => reachable s f (acc ++ nxt)

theorem reachable_single_of_no_children {s : PyState} {i : NodeId}
    (h : childVals s i = []) : ∀ f, reachable s f [i] = [i] := by
  intro f
  cases f with
  | zero => rfl
  | succ f =>
    have hstep : reachStep s [i] = [] := by
      unfold reachStep
      rw [show ([i].map (childVals s)).flatten = childVals s i ++ [] from rfl, h]
      rfl
    unfold reachable
    rw [hstep]

/-- Claim C4: confirmed.  After every sequence of allocation, add,
addchild and merge operations starting from a fresh MasterCollection,
every master node in the state has an empty children dict — addchild on a
Master never registers the child and merge never completes — so the set of
collections reachable from a master is the master alone, and the flat
entry map is exactly the union of the entries of all reachable
collections.  In particular no entry reachable from a descendant is
missing from the flat map. -/
theorem master_flat_invariant (fuel : Nat) (ops : List GOp) :
    ∀ i nd, getNode (runOps fuel ops) i = some nd →
      nd.kind = NodeKind.masterCollection →
      nd.children = []
      ∧ (∀ f, reachable (runOps fuel ops) f [i] = [i])
      ∧ (∀ f, (reachable (runOps fuel ops) f [i]).flatMap
            (entryVals (runOps fuel ops)) = entryVals (runOps fuel ops) i) := by
  intro i nd hga hmk
  have hInv := inv_runOps fuel ops
  have hch : nd.children = [] := (hInv i nd hga).1 hmk
  have hcv : childVals (runOps fuel ops) i = [] := by
    unfold childVals
    rw [hga]
    dsimp only
    rw [hch]
    rfl
  refine ⟨hch, reachable_single_of_no_children hcv, fun f => ?_⟩
  rw [reachable_single_of_no_children hcv f]
  show entryVals (runOps fuel ops) i ++ [] = entryVals (runOps fuel ops) i
  rw [List.append_nil]

/-- The operations of the Claim C4 witness: allocate one entry and add it
to the master. -/
def c4ops : List GOp := [GOp.newEntry "x", GOp.addEntry 0 0]

/-- The master node after the witness operations. -/
def c4node : Node :=
  { kind := NodeKind.masterCollection, cname := "main",
    entries := [("x", 0)], children := [], master := some 0,
    iflag := false, sortedInst := some [] }

/-- Witness for the Claim C4 theorem at a concrete operation sequence. -/
theorem master_flat_invariant_witness :
    getNode (runOps 9 c4ops) 0 = some c4node
    ∧ c4node.kind = NodeKind.masterCollection
    ∧ (c4node.children = []
      ∧ (∀ f, reachable (runOps 9 c4ops) f [0] = [0])
      ∧ (∀ f, (reachable (runOps 9 c4ops) f [0]).flatMap
            (entryVals (runOps 9 c4ops)) = entryVals (runOps 9 c4ops) 0)) :=
  ⟨rfl, rfl, master_flat_invariant 9 c4ops 0 c4node rfl rfl⟩

/-! ## The sort method and its memoization (eikosi.py lines 2338-2389) -/

/-- Attribute lookup on an entry as `Entry.__getattr__` performs it: the
fixed instance attributes first, then the bib dict.  The `collections` and
`bib` attributes hold list and dict objects with no `<` support. -/
def entryAttr (eo : EntryObj) : String → Option PyVal
  | "name" => some (PyVal.vstr eo.ename)
  | "sourcefile" => some (PyVal.vstr eo.sourcefile)
  | "docfile" => some (PyVal.vstr eo.docfile)
  | "doc" => some (PyVal.vstr eo.doc)
  | "collections" => some PyVal.vother
  | "bib" => some PyVal.vother
  | item => dictGet eo.bib item

/-- The `_key` closure of `sort` (lines 2365-2368): the attribute when the
entry has it, `None` otherwise. -/
def sortKey (eo : EntryObj) (by0 : String) : PyVal :=
  (entryAttr eo by0).getD PyVal.vnone

/-- Python `<` on the values eikosi sorts by: ints and strings compare
within their type, every other pairing raises TypeError — in particular
`None` compares with nothing, not even itself. -/
def pyValLt : PyVal → PyVal → Except String Bool
  | PyVal.vint a, PyVal.vint b => Except.ok (decide (a < b))
  | PyVal.vstr a, PyVal.vstr b => Except.ok (pyStrLt a b)
  | _, _ => Except.error "TypeError: unorderable types"

/-- Insert into a sorted prefix, after any equal keys (stability). -/
def insertSorted (key : EntryId → PyVal) (x : EntryId) :
    List EntryId → Except String (List EntryId)
  | [] => Except.ok [x]
  | y :: ys => do
    if ← pyValLt (key x) (key y) then
      pure (x :: y :: ys)
    else do
      pure (y :: (← insertSorted key x ys))

/-- `sorted(iterable, key=...)`: a stable ascending comparison sort that
raises TypeError on the first comparison of unorderable keys, exactly when
CPython timsort does — any list of two or more elements whose keys are not
all ints or all strings. -/
def pySorted (key : EntryId → PyVal) (l : List EntryId) :
    Except String (List EntryId) :=
  l.foldlM (fun acc x => insertSorted key x acc) []

/-- Reading `self._sorted`: the instance dict when the instance has
assigned one, else the class-level dict. -/
def sortedRead (s : PyState) (n : NodeId) : List (String × List EntryId) :=
  match getNode s n with
  | some nd => nd.sortedInst.getD s.classSorted
  | none => []

/-- `self._sorted[by] = v`: item assignment mutates whichever dict the
attribute lookup resolves to — the CLASS dict when the instance has never
assigned `self._sorted` itself. -/
def sortedWrite (s : PyState) (n : NodeId) (k : String) (v : List EntryId) :
    PyState :=
  match getNode s n with
  | some nd =>
    match nd.sortedInst with
    | some d => setNode s n { nd with sortedInst := some (dictSet d k v) }
    | none => { s with classSorted := dictSet s.classSorted k v }
  | none => s

/-- Iteration of `sorted(self, ...)`: a MasterCollection iterates its flat
entry dict; every other collection uses the deep default iterator. -/
def selfIter (fuel : Nat) (s : PyState) (n : NodeId) :
    PyState × Except String (List EntryId) :=
  match getNode s n with
  | some nd =>
    if nd.kind = NodeKind.masterCollection then (s, Except.ok (nd.entries.map Prod.snd))
    else protoIter fuel s n
  | none => (s, Except.error "NameError")

/-- The key function over the entry arena. -/
def stateKey (s : PyState) (by0 : String) (eid : EntryId) : PyVal :=
  match getEntry s eid with
  | some eo => sortKey eo by0
  | none => PyVal.vnone

/-- `ProtoCollection.sort` (lines 2338-2389).  When the requested item is
not cached (or refresh is set) the deep entry list is sorted and stored
through `self._sorted[by] = ...`.  When `omit` is set or `ascending` is
false, the code copies the cached list and immediately evaluates
`result[len(result)]` (the first index of `range(len(result), -1, -1)`),
which raises IndexError unconditionally, for empty and nonempty lists
alike; the reversal code behind it is unreachable. -/
def sortOp (fuel : Nat) (s : PyState) (n : NodeId) (by0 : String)
    (refresh ascending omitMissing : Bool) : PyState × Except String (List EntryId) :=
  let cachedMiss := (dictGet (sortedRead s n) by0).isNone
  let afterCache : PyState × Except String Unit :=
    if cachedMiss ∨ refresh then
      match selfIter fuel s n with
      | (s1, Except.error e) => (s1, Except.error e)
      | (s1, Except.ok eids) =>
        match pySorted (stateKey s1 by0) eids with
        | Except.error e => (s1, Except.error e)
        | Except.ok sortedIds => (sortedWrite s1 n by0 sortedIds, Except.ok ())
    else (s, Except.ok ())
  match afterCache with
  | (s2, Except.error e) => (s2, Except.error e)
  | (s2, Except.ok _) =>
    if omitMissing ∨ ascending = false then
      (s2, Except.error "IndexError: list index out of range")
    else
      (s2, Except.ok ((dictGet (sortedRead s2 n) by0).getD []))

/-- A collection with two entries that both carry an integer year. -/
def c7State : PyState :=
  { nodes := [(0, { kind := NodeKind.collection, cname := "A",
                    entries := [("a", 0), ("b", 1)], children := [],
                    master := none, iflag := false, sortedInst := some [] })],
    entryArena := [(0, { ename := "a", bib := [("year", PyVal.vint 1999)] }),
                   (1, { ename := "b", bib := [("year", PyVal.vint 1987)] })],
    classSorted := [] }

/-- The same collection with a second entry lacking the year item. -/
def c7MissState : PyState :=
  { nodes := [(0, { kind := NodeKind.collection, cname := "A",
                    entries := [("a", 0), ("c", 1)], children := [],
                    master := none, iflag := false, sortedInst := some [] })],
    entryArena := [(0, { ename := "a", bib := [("year", PyVal.vint 1999)] }),
                   (1, { ename := "c", bib := [("title", PyVal.vstr "T")] })],
    classSorted := [] }

/-- Claim C7: refuted on the code.  The default ascending sort with every
entry carrying the item works, but each behaviour the claim promises for
the other cases raises instead: `omit=True` and `ascending=False` both run
`result[len(result)]` on the first loop iteration and raise IndexError on
every collection, and an entry lacking the item gives the sort key `None`,
which Python cannot compare with the other keys, so the sort raises
TypeError instead of placing the entry at the end. -/
theorem sort_options_always_raise :
    (sortOp 9 c7State 0 "year" false true false).2 = Except.ok [1, 0]
    ∧ (sortOp 9 c7State 0 "year" false true true).2 =
        Except.error "IndexError: list index out of range"
    ∧ (sortOp 9 c7State 0 "year" false false false).2 =
        Except.error "IndexError: list index out of range"
    ∧ (sortOp 9 c7MissState 0 "year" false true false).2 =
        Except.error "TypeError: unorderable types" := by
  exact ⟨rfl, rfl, rfl, rfl⟩

/-- Collection A (node 0) owns subcollection CA (node 1) which holds the
only entry; B (node 2) is a fresh unrelated empty collection.  Neither A
nor B has ever called add, so neither has an instance `_sorted` dict. -/
def c10State : PyState :=
  { nodes := [(0, { kind := NodeKind.collection, cname := "A",
                    entries := [], children := [("ca", 1)], master := none,
                    iflag := false, sortedInst := none }),
              (1, { kind := NodeKind.subCollection, cname := "ca",
                    entries := [("x", 0)], children := [], master := none,
                    iflag := false, sortedInst := some [] }),
              (2, { kind := NodeKind.collection, cname := "B",
                    entries := [], children := [], master := none,
                    iflag := false, sortedInst := none })],
    entryArena := [(0, { ename := "x", bib := [("title", PyVal.vstr "T")] })],
    classSorted := [] }

/-- The state after sorting A by title: the result was written into the
class-level `_sorted` dict because A has no instance dict. -/
def c10Mid : PyState :=
  { nodes := [(0, { kind := NodeKind.collection, cname := "A",
                    entries := [], children := [("ca", 1)], master := none,
                    iflag := false, sortedInst := none }),
              (1, { kind := NodeKind.subCollection, cname := "ca",
                    entries := [("x", 0)], children := [], master := none,
                    iflag := false, sortedInst := some [] }),
              (2, { kind := NodeKind.collection, cname := "B",
                    entries := [], children := [], master := none,
                    iflag := false, sortedInst := none })],
    entryArena := [(0, { ename := "x", bib := [("title", PyVal.vstr "T")] })],
    classSorted := [("title", [0])] }

/-- Claim C10: refuted on the code.  `_sorted = {}` is a class attribute
and `__init__` does not create an instance copy, so a collection that has
never executed `self._sorted = {}` (only `add` does that) reads and writes
the dict shared by every such instance.  Sorting A stores the result in
the class dict; the completely unrelated empty collection B then returns
A's cached entry list from its own sort call, even though B has no entries
and no children — and a forced recomputation on B returns the correct
empty list. -/
theorem sort_cache_shared_between_instances :
    sortOp 9 c10State 0 "title" false true false = (c10Mid, Except.ok [0])
    ∧ entryVals c10Mid 2 = []
    ∧ childVals c10Mid 2 = []
    ∧ (sortOp 9 c10Mid 2 "title" false true false).2 = Except.ok [0]
    ∧ (sortOp 9 c10Mid 2 "title" true true false).2 = Except.ok [] := by
  exact ⟨rfl, rfl, rfl, rfl, rfl⟩

/-- A collection with two sortable entries, with an instance sort dict
(as any collection that ever called add has). -/
def c6State : PyState :=
  { nodes := [(0, { kind := NodeKind.collection, cname := "A",
                    entries := [("a", 0), ("b", 1)], children := [],
                    master := none, iflag := false, sortedInst := some [] })],
    entryArena := [(0, { ename := "a", bib := [("title", PyVal.vstr "A")] }),
                   (1, { ename := "b", bib := [("title", PyVal.vstr "B")] })],
    classSorted := [] }

/-- c6State after the first sort by title cached its result. -/
def c6Sorted : PyState :=
  { nodes := [(0, { kind := NodeKind.collection, cname := "A",
                    entries := [("a", 0), ("b", 1)], children := [],
                    master := none, iflag := false,
                    sortedInst := some [("title", [0, 1])] })],
    entryArena := [(0, { ename := "a", bib := [("title", PyVal.vstr "A")] }),
                   (1, { ename := "b", bib := [("title", PyVal.vstr "B")] })],
    classSorted := [] }

/-- c6Sorted after removing entry a: the entry is gone but the cached sort
still lists it. -/
def c6Removed : PyState :=
  { nodes := [(0, { kind := NodeKind.collection, cname := "A",
                    entries := [("b", 1)], children := [],
                    master := none, iflag := false,
                    sortedInst := some [("title", [0, 1])] })],
    entryArena := [(0, { ename := "a", bib := [("title", PyVal.vstr "A")] }),
                   (1, { ename := "b", bib := [("title", PyVal.vstr "B")] })],
    classSorted := [] }

/-- Claim C6 counterexample: `remove` does not invalidate the sort cache.
After sorting by title and removing entry a, a second sort with the same
item returns the stale cached list still containing the removed entry,
while a forced recomputation returns the true remaining list. -/
theorem sort_cache_stale_after_remove :
    sortOp 9 c6State 0 "title" false true false = (c6Sorted, Except.ok [0, 1])
    ∧ removeOp 9 c6Sorted 0 "a" = (c6Removed, Except.ok ())
    ∧ entryVals c6Removed 0 = [1]
    ∧ (sortOp 9 c6Removed 0 "title" false true false).2 = Except.ok [0, 1]
    ∧ (sortOp 9 c6Removed 0 "title" true true false).2 = Except.ok [1] := by
  exact ⟨rfl, rfl, rfl, rfl, rfl⟩

/-- State s2 preserves every sort cache of s1: the class-level dict and
the instance dict of every node. -/
def CachePres (s1 s2 : PyState) : Prop :=
  s2.classSorted = s1.classSorted ∧
  ∀ i, (getNode s2 i).map Node.sortedInst = (getNode s1 i).map Node.sortedInst

theorem cachePres_refl (s : PyState) : CachePres s s :=
  ⟨rfl, fun _ => rfl⟩

theorem cachePres_trans {a b c : PyState} (h1 : CachePres a b)
    (h2 : CachePres b c) : CachePres a c :=
  ⟨h2.1.trans h1.1, fun i => (h2.2 i).trans (h1.2 i)⟩

theorem cachePres_of_framePres {s s' : PyState} (h : FramePres s s') :
    CachePres s s' := by
  obtain ⟨_, hcl, hn⟩ := h
  exact ⟨hcl, fun i => (hn i).2.2.1⟩

/-- Replacing a node with one holding the same instance cache preserves
the caches. -/
theorem cachePres_setNode {s : PyState} {n : NodeId} {nd nd' : Node}
    (h : getNode s n = some nd) (hsi : nd'.sortedInst = nd.sortedInst) :
    CachePres s (setNode s n nd') := by
  refine ⟨rfl, fun i => ?_⟩
  rw [getNode_setNode]
  by_cases hni : n = i
  · subst hni
    rw [if_pos rfl, h]
    exact congrArg some hsi
  · rw [if_neg hni]

theorem removeOp_cachePres (fuel : Nat) (s : PyState) (n : NodeId)
    (nm : String) : CachePres s (removeOp fuel s n nm).1 := by
  unfold removeOp
  cases hit : iterInit fuel s n false true with
  | mk s1 r =>
    have h1 : CachePres s s1 := by
      refine cachePres_of_framePres (framePres_of_eraseFlags ?_)
      have h0 := eraseFlags_iterInit fuel s n false true
      rw [hit] at h0
      exact h0
    cases r with
    | error e => exact h1
    | ok sched =>
      dsimp only
      have aux : ∀ (l : List NodeId) (acc : PyState × Bool), CachePres s acc.1 →
          CachePres s (l.foldl (fun (acc2 : PyState × Bool) (c : NodeId) =>
            match getNode acc2.1 c with
            | some cnd =>
              if (dictGet cnd.entries nm).isSome then
                (setNode acc2.1 c { cnd with entries := dictDel cnd.entries nm }, true)
              else acc2
            | none => acc2) acc).1 := by
        intro l
        induction l with
        | nil => intro acc h; exact h
        | cons c0 rest ih =>
          intro acc h
          rw [List.foldl_cons]
          refine ih _ ?_
          cases hg : getNode acc.1 c0 with
          | none => simpa [hg] using h
          | some cnd =>
            dsimp only [hg]
            by_cases hd : (dictGet cnd.entries nm).isSome = true
            · rw [if_pos hd]
              exact cachePres_trans h (cachePres_setNode hg rfl)
            · rw [if_neg hd]
              exact h
      cases hfd : sched.foldl (fun (acc2 : PyState × Bool) (c : NodeId) =>
          match getNode acc2.1 c with
          | some cnd =>
            if (dictGet cnd.entries nm).isSome then
              (setNode acc2.1 c { cnd with entries := dictDel cnd.entries nm }, true)
            else acc2
          | none => acc2) (s1, false) with
      | mk s2 found =>
        have h2 : CachePres s s2 := by
          have h3 := aux sched (s1, false) h1
          rw [hfd] at h3
          exact h3
        cases found <;> simpa using h2

theorem protoAddchild_cachePres (fuel : Nat) (s : PyState) (p c : NodeId) :
    CachePres s (protoAddchild fuel s p c).1 := by
  unfold protoAddchild
  cases hp : getNode s p with
  | none => cases hc : getNode s c <;> exact cachePres_refl s
  | some pnd =>
    cases hc : getNode s c with
    | none => exact cachePres_refl s
    | some cnd =>
      dsimp only
      by_cases hck : cnd.kind = NodeKind.masterCollection
      · rw [if_pos hck]
        exact cachePres_refl s
      · rw [if_neg hck]
        cases hcm : cnd.master with
        | some cm =>
          cases hpm : pnd.master with
          | none => exact cachePres_refl s
          | some pm =>
            dsimp only
            by_cases hne : pm ≠ cm
            · rw [if_pos hne]
              exact cachePres_refl s
            · rw [if_neg hne]
              cases hgc : getchildOp fuel s p cnd.cname with
              | mk s1 r =>
                have h1 : CachePres s s1 := by
                  refine cachePres_of_framePres (framePres_of_eraseFlags ?_)
                  have h0 := eraseFlags_getchildOp fuel s p cnd.cname
                  rw [hgc] at h0
                  exact h0
                cases r with
                | error e => exact h1
                | ok found =>
                  cases found with
                  | some x => exact h1
                  | none =>
                    dsimp only
                    cases hp1 : getNode s1 p with
                    | none => cases hc1 : getNode s1 c <;> exact h1
                    | some pnd1 =>
                      cases hc1 : getNode s1 c with
                      | none => exact h1
                      | some cnd1 =>
                        dsimp only
                        have h2 : CachePres s (setNode s1 p
                            { pnd1 with children := dictSet pnd1.children cnd1.cname c }) :=
                          cachePres_trans h1 (cachePres_setNode hp1 rfl)
                        cases hs2c : getNode (setNode s1 p
                            { pnd1 with children := dictSet pnd1.children cnd1.cname c }) c with
                        | none => exact h2
                        | some cnd2 =>
                          exact cachePres_trans h2 (cachePres_setNode hs2c rfl)
        | none =>
          dsimp only
          cases hgc : getchildOp fuel s p cnd.cname with
          | mk s1 r =>
            have h1 : CachePres s s1 := by
              refine cachePres_of_framePres (framePres_of_eraseFlags ?_)
              have h0 := eraseFlags_getchildOp fuel s p cnd.cname
              rw [hgc] at h0
              exact h0
            cases r with
            | error e => exact h1
            | ok found =>
              cases found with
              | some x => exact h1
              | none =>
                dsimp only
                cases hp1 : getNode s1 p with
                | none => cases hc1 : getNode s1 c <;> exact h1
                | some pnd1 =>
                  cases hc1 : getNode s1 c with
                  | none => exact h1
                  | some cnd1 =>
                    dsimp only
                    have h2 : CachePres s (setNode s1 p
                        { pnd1 with children := dictSet pnd1.children cnd1.cname c }) :=
                      cachePres_trans h1 (cachePres_setNode hp1 rfl)
                    cases hs2c : getNode (setNode s1 p
                        { pnd1 with children := dictSet pnd1.children cnd1.cname c }) c with
                    | none => exact h2
                    | some cnd2 =>
                      exact cachePres_trans h2 (cachePres_setNode hs2c rfl)

theorem addchildOp_cachePres (fuel : Nat) (s : PyState) (p c : NodeId) :
    CachePres s (addchildOp fuel s p c).1 := by
  unfold addchildOp
  cases hp : getNode s p with
  | none => exact cachePres_refl s
  | some pnd =>
    dsimp only
    by_cases hk : pnd.kind = NodeKind.masterCollection
    · rw [if_pos hk]
      exact cachePres_of_framePres (masterAddchild_frame fuel s p c)
    · rw [if_neg hk]
      exact protoAddchild_cachePres fuel s p c

theorem getNode_setEntry (s : PyState) (i : EntryId) (eo : EntryObj)
    (j : NodeId) : getNode (setEntry s i eo) j = getNode s j := rfl

/-- A successful MasterCollection.add leaves the master instance sort
cache reset to the empty dict. -/
theorem masterAdd_sortcache (s : PyState) (m : NodeId) (e : EntryId) :
    (masterAdd s m e).2 = Except.ok () →
    (getNode (masterAdd s m e).1 m).map Node.sortedInst = some (some []) := by
  unfold masterAdd
  cases hn : getNode s m with
  | none => cases he : getEntry s e <;> intro h <;> simp at h
  | some nd =>
    cases he : getEntry s e with
    | none => intro h; simp at h
    | some eo =>
      simp only
      have hproceed :
          (getNode
            ((let s1 := setNode s m
                { nd with entries := dictSet nd.entries eo.ename e,
                          sortedInst := some [] }
              match getEntry s1 e with
              | some eo1 =>
                (setEntry s1 e { eo1 with colls := eo1.colls ++ [m] }, Except.ok ())
              | none => (s1, Except.ok ())) :
              PyState × Except String Unit).1 m).map Node.sortedInst
            = some (some []) := by
        have hs1 : getNode (setNode s m
            { nd with entries := dictSet nd.entries eo.ename e,
                      sortedInst := some [] }) m =
            some { nd with entries := dictSet nd.entries eo.ename e,
                           sortedInst := some [] } := by
          rw [getNode_setNode, if_pos rfl]
        cases hge : getEntry (setNode s m
            { nd with entries := dictSet nd.entries eo.ename e,
                      sortedInst := some [] }) e with
        | none => simp only [hge]; rw [hs1]; rfl
        | some eo1 =>
          simp only [hge]
          rw [getNode_setEntry, hs1]
          rfl
      cases hd : dictGet nd.entries eo.ename with
      | some t =>
        dsimp only
        by_cases ht : t = e
        · rw [if_neg (by simp [ht])]
          exact fun _ => hproceed
        · rw [if_pos (by exact ht)]
          intro h; simp at h
      | none =>
        exact fun _ => hproceed

/-- A successful ProtoCollection.add (at any fuel) leaves the target
collection instance sort cache reset to the empty dict. -/
theorem addOp_sortcache (fuel : Nat) (s : PyState) (c : NodeId) (e : EntryId) :
    (addOp fuel s c e).2 = Except.ok () →
    (getNode (addOp fuel s c e).1 c).map Node.sortedInst = some (some []) := by
  cases fuel with
  | zero => intro h; simp [addOp] at h
  | succ fuel =>
    unfold addOp
    cases hn : getNode s c with
    | none => intro h; simp at h
    | some nd =>
      simp only
      by_cases hk : nd.kind = NodeKind.masterCollection
      · rw [if_pos hk]
        exact masterAdd_sortcache s c e
      · rw [if_neg hk]
        have hfinish : ∀ (sIn : PyState),
            ((match getNode sIn c, getEntry sIn e with
              | some nd1, some eo1 =>
                (setNode sIn c
                  { nd1 with entries := dictSet nd1.entries eo1.ename e,
                             sortedInst := some [] }, Except.ok ())
              | _, _ => (sIn, Except.error "NameError")) :
              PyState × Except String Unit).2 = Except.ok () →
            (getNode ((match getNode sIn c, getEntry sIn e with
              | some nd1, some eo1 =>
                (setNode sIn c
                  { nd1 with entries := dictSet nd1.entries eo1.ename e,
                             sortedInst := some [] }, Except.ok ())
              | _, _ => (sIn, Except.error "NameError")) :
              PyState × Except String Unit).1 c).map Node.sortedInst
              = some (some []) := by
          intro sIn
          cases hn1 : getNode sIn c with
          | none => cases he1 : getEntry sIn e <;> intro h <;> simp [hn1, he1] at h
          | some nd1 =>
            cases he1 : getEntry sIn e with
            | none => intro h; simp [hn1, he1] at h
            | some eo1 =>
              simp only [hn1, he1]
              intro _
              rw [getNode_setNode, if_pos rfl]
              rfl
        cases hmm : nd.master with
        | none =>
          cases he : getEntry s e with
          | none => intro h; simp at h
          | some eo =>
            simp only
            cases hd : dictGet nd.entries eo.ename with
            | some t =>
              dsimp only
              by_cases ht : t = e
              · rw [if_neg (by simp [ht])]
                have hf := hfinish s
                rw [he] at hf
                exact hf
              · rw [if_pos (by exact ht)]
                intro h; simp at h
            | none =>
              have hf := hfinish s
              rw [he] at hf
              exact hf
        | some m =>
          dsimp only
          cases hrec : addOp fuel s m e with
          | mk s1 r =>
            cases r with
            | error err => dsimp only; intro h; simp at h
            | ok _ => dsimp only; exact hfinish s1

/-- A default-ascending sort that finds the requested item cached returns
the cached list without touching the state. -/
theorem sortOp_cachedHit (fuel : Nat) (s : PyState) (n : NodeId) (by0 : String)
    (v : List EntryId) (h : dictGet (sortedRead s n) by0 = some v) :
    sortOp fuel s n by0 false true false = (s, Except.ok v) := by
  unfold sortOp
  simp [h]

theorem sortOp_missIterError (fuel : Nat) (s : PyState) (n : NodeId)
    (by0 : String) (s1 : PyState) (e : String)
    (hq : dictGet (sortedRead s n) by0 = none)
    (hsi : selfIter fuel s n = (s1, Except.error e)) :
    sortOp fuel s n by0 false true false = (s1, Except.error e) := by
  unfold sortOp
  rw [hq, hsi]
  simp

theorem sortOp_missSortError (fuel : Nat) (s : PyState) (n : NodeId)
    (by0 : String) (s1 : PyState) (eids : List EntryId) (e : String)
    (hq : dictGet (sortedRead s n) by0 = none)
    (hsi : selfIter fuel s n = (s1, Except.ok eids))
    (hps : pySorted (stateKey s1 by0) eids = Except.error e) :
    sortOp fuel s n by0 false true false = (s1, Except.error e) := by
  unfold sortOp
  rw [hq, hsi]
  simp [hps]

theorem sortOp_missRun (fuel : Nat) (s : PyState) (n : NodeId) (by0 : String)
    (s1 : PyState) (eids ids : List EntryId)
    (hq : dictGet (sortedRead s n) by0 = none)
    (hsi : selfIter fuel s n = (s1, Except.ok eids))
    (hps : pySorted (stateKey s1 by0) eids = Except.ok ids) :
    sortOp fuel s n by0 false true false =
      (sortedWrite s1 n by0 ids,
       Except.ok ((dictGet (sortedRead (sortedWrite s1 n by0 ids) n) by0).getD [])) := by
  unfold sortOp
  rw [hq, hsi]
  simp [hps]

theorem selfIter_isSome (fuel : Nat) (s : PyState) (n : NodeId) (s1 : PyState)
    (eids : List EntryId) (h : selfIter fuel s n = (s1, Except.ok eids)) :
    (getNode s1 n).isSome = true := by
  unfold selfIter at h
  cases hg : getNode s n with
  | none => rw [hg] at h; simp at h
  | some nd =>
    rw [hg] at h
    dsimp only at h
    by_cases hk : nd.kind = NodeKind.masterCollection
    · rw [if_pos hk] at h
      have h1 : s = s1 := congrArg Prod.fst h
      rw [← h1, hg]
      rfl
    · rw [if_neg hk] at h
      have h1 : (protoIter fuel s n).1 = s1 := congrArg Prod.fst h
      have hf := eraseFlags_protoIter fuel s n
      rw [h1] at hf
      have hkind := ((framePres_of_eraseFlags hf).2.2 n).2.2.2.1
      rw [hg] at hkind
      cases hq2 : getNode s1 n with
      | none => rw [hq2] at hkind; simp at hkind
      | some _ => rfl

/-- After writing a sort result through `self._sorted[by] = ids`, reading
`self._sorted[by]` gives back exactly that result, whichever dict (class
or instance) absorbed the write. -/
theorem sortedRead_sortedWrite (s : PyState) (n : NodeId) (k : String)
    (v : List EntryId) (h : (getNode s n).isSome = true) :
    dictGet (sortedRead (sortedWrite s n k v) n) k = some v := by
  unfold sortedWrite
  cases hg : getNode s n with
  | none => rw [hg] at h; simp at h
  | some nd =>
    dsimp only
    cases hsi : nd.sortedInst with
    | some d =>
      dsimp only
      unfold sortedRead
      rw [getNode_setNode, if_pos rfl]
      dsimp only
      rw [Option.getD_some, dictGet_dictSet, if_pos rfl]
    | none =>
      dsimp only
      unfold sortedRead
      rw [show getNode { s with classSorted := dictSet s.classSorted k v } n
            = getNode s n from rfl, hg]
      dsimp only
      rw [hsi, Option.getD_none, dictGet_dictSet, if_pos rfl]

/-- A successful default-ascending sort leaves the requested item cached
with exactly the returned list. -/
theorem sortOp_cachesResult (fuel : Nat) (s : PyState) (n : NodeId)
    (by0 : String) (s2 : PyState) (L : List EntryId)
    (h : sortOp fuel s n by0 false true false = (s2, Except.ok L)) :
    dictGet (sortedRead s2 n) by0 = some L := by
  cases hq : dictGet (sortedRead s n) by0 with
  | some v =>
    rw [sortOp_cachedHit fuel s n by0 v hq] at h
    have h1 : s = s2 := congrArg Prod.fst h
    have h2 : Except.ok (ε := String) v = Except.ok L := congrArg Prod.snd h
    injection h2 with h3
    rw [← h1, hq, h3]
  | none =>
    cases hsi : selfIter fuel s n with
    | mk s1 r =>
      cases r with
      | error e =>
        rw [sortOp_missIterError fuel s n by0 s1 e hq hsi] at h
        have h2 : Except.error (α := List EntryId) e = Except.ok L :=
          congrArg Prod.snd h
        exact absurd h2 (by simp)
      | ok eids =>
        cases hps : pySorted (stateKey s1 by0) eids with
        | error e =>
          rw [sortOp_missSortError fuel s n by0 s1 eids e hq hsi hps] at h
          have h2 : Except.error (α := List EntryId) e = Except.ok L :=
            congrArg Prod.snd h
          exact absurd h2 (by simp)
        | ok ids =>
          rw [sortOp_missRun fuel s n by0 s1 eids ids hq hsi hps] at h
          have hwr := sortedRead_sortedWrite s1 n by0 ids
            (selfIter_isSome fuel s n s1 eids hsi)
          have h1 : sortedWrite s1 n by0 ids = s2 := congrArg Prod.fst h
          have h2 := congrArg Prod.snd h
          dsimp only at h2
          rw [hwr] at h2
          injection h2 with h3
          rw [Option.getD_some] at h3
          rw [← h1, hwr, h3]

/-- Claim C6 (amended): a repeated default sort with the same item and no
intervening mutation returns the identical cached list and leaves the
state unchanged; a successful `add` resets the target collection instance
sort cache to the empty dict (so the next sort recomputes); but `remove`
and `addchild` preserve every sort cache in the program (class dict and
every instance dict), so they never invalidate a cached sort. -/
theorem sort_cache_semantics (fuel : Nat) (s : PyState) (n : NodeId)
    (by0 : String) :
    (∀ s2 L, sortOp fuel s n by0 false true false = (s2, Except.ok L) →
        sortOp fuel s2 n by0 false true false = (s2, Except.ok L))
    ∧ (∀ c e, (addOp fuel s c e).2 = Except.ok () →
        (getNode (addOp fuel s c e).1 c).map Node.sortedInst = some (some []))
    ∧ (∀ nm, CachePres s (removeOp fuel s n nm).1)
    ∧ (∀ p c, CachePres s (addchildOp fuel s p c).1) := by
  refine ⟨?_, ?_, ?_, ?_⟩
  · intro s2 L h
    exact sortOp_cachedHit fuel s2 n by0 L (sortOp_cachesResult fuel s n by0 s2 L h)
  · exact fun c e => addOp_sortcache fuel s c e
  · exact fun nm => removeOp_cachePres fuel s n nm
  · exact fun p c => addchildOp_cachePres fuel s p c

/-- Left and right curly brace characters, used by the BibTeX syntax. -/
def lbChar : Char := Char.ofNat 123

def rbChar : Char := Char.ofNat 125

def quoteChar : Char := Char.ofNat 34

/-- Python str.isspace restricted to the ASCII whitespace characters that
can occur in a .bib file. -/
def pyIsSpace (c : Char) : Bool :=
  c = ' ' ∨ c = Char.ofNat 10 ∨ c = Char.ofNat 9 ∨ c = Char.ofNat 13

/-- Python str.isalpha on ASCII input. -/
def pyIsAlpha (c : Char) : Bool :=
  (Char.ofNat 65 ≤ c ∧ c ≤ Char.ofNat 90) ∨ (Char.ofNat 97 ≤ c ∧ c ≤ Char.ofNat 122)

/-- Python str.upper on a single ASCII character. -/
def pyUpper (c : Char) : Char :=
  if Char.ofNat 97 ≤ c ∧ c ≤ Char.ofNat 122 then Char.ofNat (c.toNat - 32) else c

/-- The special character string of loadbib (line 2988). -/
def bibSpecial : List Char :=
  [quoteChar, lbChar, rbChar, ',', '@', '#', '=']

/-- The recognized entry type keys of the loadbib entrytypes dict
(lines 2979-2985). -/
def bibEntrytypes : List String :=
  ["@ARTICLE", "@INPROCEEDINGS", "@TECHREPORT", "@BOOK", "@MISC"]

/-- State memory of the loadbib character automaton (lines 3041-3056).
Line and column counters are omitted: they only feed the text of error
messages, which this embedding abbreviates to fixed strings per raise
site. -/
structure LoadState where
  st : Nat
  activetype : String
  activename : String
  activeitem : String
  activedata : String
  word : String
  endofentry : Bool
  endofitem : Bool
  comment : Bool
  strTbl : List (String × String)
  bib : List (String × String)
  bracket : Int
  quote : Bool
  added : Nat
deriving Repr, DecidableEq

def lbInit : LoadState :=
  { st := 0, activetype := "", activename := "", activeitem := "",
    activedata := "", word := "", endofentry := false, endofitem := false,
    comment := false, strTbl := [], bib := [], bracket := 0, quote := false,
    added := 0 }

/-- The state-dispatch portion of the loadbib loop body (lines 3064-3276):
comment detection, then the state 0-11 elif chain.  Raising is an error
result; stderr warnings are ignored as in the code they do not affect the
parse. -/
def lbDispatch (s0 : LoadState) (c : Char) : Except String LoadState :=
  let s := if ¬ s0.quote ∧ s0.bracket = 0 ∧ c = '%' then
      { s0 with comment := true } else s0
  if s.comment then
    Except.ok (if c = Char.ofNat 10 then { s with comment := false } else s)
  else if s.st = 0 then
    if s.bib ≠ [] ∨ s.activename ≠ "" ∨ s.activetype ≠ "" ∨ s.activeitem ≠ "" then
      Except.error "Exception: loadbib state 0 internal error"
    else if pyIsSpace c then Except.ok s
    else if c = '@' then
      Except.ok { s with activetype := String.singleton c, st := s.st + 1 }
    else Except.error "Exception: loadbib expected at-sign starting a new entry"
  else if s.st = 1 then
    if pyIsAlpha c then
      Except.ok { s with activetype := s.activetype.push (pyUpper c) }
    else if pyIsSpace c then Except.ok { s with st := s.st + 1 }
    else if c = lbChar then
      if s.activetype = "@STRING" then
        Except.ok { s with st := 5, bracket := 1 }
      else if s.activetype = "@COMMENT" then
        Except.ok { s with st := 11, bracket := 1 }
      else
        Except.ok { s with st := s.st + 2, bracket := 1 }
    else Except.error "Exception: loadbib unexpected character while reading the entry type"
  else if s.st = 2 then
    if pyIsSpace c then Except.ok s
    else if c = lbChar then
      if s.activetype = "@STRING" then
        Except.ok { s with st := 5, bracket := 1 }
      else if s.activetype = "@COMMENT" then
        Except.ok { s with st := 11, bracket := 1 }
      else
        Except.ok { s with st := s.st + 1, bracket := 1 }
    else Except.error "Exception: loadbib expected bracket to start the entry"
  else if s.st = 3 then
    if s.activename ≠ "" then
      Except.error "Exception: loadbib state 3 internal error"
    else if pyIsSpace c then Except.ok s
    else if bibSpecial.contains c then
      Except.error "Exception: loadbib unexpected character in entry name"
    else Except.ok { s with activename := String.singleton c, st := s.st + 1 }
  else if s.st = 4 then
    if c = rbChar then
      Except.ok { s with bracket := 0, endofentry := true }
    else if c = ',' then Except.ok { s with st := s.st + 1 }
    else if pyIsSpace c then Except.ok s
    else if bibSpecial.contains c then
      Except.error "Exception: loadbib illegal special character in the entry name"
    else Except.ok { s with activename := s.activename.push c }
  else if s.st = 5 then
    if s.activeitem ≠ "" then
      Except.error "Exception: loadbib state 5 internal error"
    else if pyIsSpace c then Except.ok s
    else if c = rbChar then
      Except.ok { s with bracket := 0, endofentry := true }
    else if pyIsAlpha c then
      Except.ok { s with st := s.st + 1, activeitem := String.singleton c }
    else if bibSpecial.contains c then
      Except.error "Exception: loadbib unexpected character while parsing entry"
    else Except.ok s
  else if s.st = 6 then
    if s.quote ∨ s.bracket ≠ 1 then
      Except.error "Exception: loadbib state 6 internal error"
    else if c = '=' then
      Except.ok { s with activedata := "", word := "", st := s.st + 2 }
    else if pyIsAlpha c then
      Except.ok { s with activeitem := s.activeitem.push c }
    else if pyIsSpace c then Except.ok { s with st := s.st + 1 }
    else Except.error "Exception: loadbib illegal character in item name"
  else if s.st = 7 then
    if c = '=' then
      Except.ok { s with activedata := "", word := "", st := s.st + 1 }
    else if pyIsSpace c then Except.ok s
    else Except.error "Exception: loadbib expected equals sign"
  else if s.st = 8 then
    if s.bracket ≠ 1 then
      Except.error "Exception: loadbib state 8 bracket count is not 1"
    else if c = lbChar then
      Except.ok { s with bracket := s.bracket + 1, st := s.st + 1 }
    else if c = quoteChar then
      Except.ok { s with quote := true, st := s.st + 1 }
    else if c = ',' then
      Except.ok { s with activedata := "", endofitem := true }
    else if pyIsSpace c then Except.ok s
    else if bibSpecial.contains c then
      Except.error "Exception: loadbib unexpected special character"
    else Except.ok { s with word := String.singleton c, st := s.st + 1 }
  else if s.st = 9 then
    if c = lbChar then
      Except.ok { s with bracket := s.bracket + 1, word := s.word.push c }
    else if c = rbChar then
      if s.quote then Except.ok { s with word := s.word.push c }
      else
        let b := s.bracket - 1
        if b = 1 then
          Except.ok { s with bracket := b, st := s.st + 1,
                             activedata := s.activedata ++ s.word }
        else Except.ok { s with bracket := b, word := s.word.push c }
    else if c = quoteChar then
      if s.bracket > 1 then Except.ok { s with word := s.word.push c }
      else if s.quote then
        Except.ok { s with quote := false, st := s.st + 1,
                           activedata := s.activedata ++ s.word }
      else Except.error "Exception: loadbib illegal start of quote in the middle of item data"
    else if c = ',' then
      if s.quote ∨ s.bracket > 1 then Except.ok { s with word := s.word.push c }
      else
        match dictGet s.strTbl s.word with
        | some v => Except.ok { s with activedata := s.activedata ++ v,
                                       endofitem := true }
        | none => Except.ok { s with activedata := s.activedata ++ s.word,
                                     endofitem := true }
    else if pyIsSpace c then
      if s.quote ∨ s.bracket > 1 then Except.ok { s with word := s.word.push c }
      else
        match dictGet s.strTbl s.word with
        | some v => Except.ok { s with activedata := s.activedata ++ v,
                                       st := s.st + 1 }
        | none => Except.ok { s with activedata := s.activedata ++ s.word,
                                     st := s.st + 1 }
    else Except.ok { s with word := s.word.push c }
  else if s.st = 10 then
    if s.quote ∨ s.bracket ≠ 1 then
      Except.error "Exception: loadbib state 10 internal error"
    else if c = ',' then Except.ok { s with endofitem := true }
    else if c = rbChar then
      Except.ok { s with bracket := 0, endofitem := true, endofentry := true }
    else if c = '#' then Except.ok { s with word := "", st := 8 }
    else if pyIsSpace c then Except.ok s
    else Except.error "Exception: loadbib unexpected character parsing entry item"
  else if s.st = 11 then
    if c = lbChar then Except.ok { s with bracket := s.bracket + 1 }
    else if c = rbChar then
      let b := s.bracket - 1
      if b = 0 then Except.ok { s with bracket := b, endofentry := true }
      else Except.ok { s with bracket := b }
    else Except.ok s
  else Except.ok s

/-- The end-of-item processing of the loop body (lines 3278-3299).  For a
recognized entry type the code evaluates et.get_rules(et, activeitem), but
no class in eikosi.py defines get_rules (that helper exists only in the
legacy entries.py module, which eikosi.py does not import), so Python
raises AttributeError before the item can be stored. -/
def lbEndItem (s : LoadState) : Except String LoadState :=
  if s.endofitem then
    if s.quote ∨ s.bracket > 1 then
      Except.error "Exception: loadbib unclosed quote or bracket"
    else if s.activetype = "@STRING" then
      Except.ok { s with strTbl := dictSet s.strTbl s.activeitem s.activedata,
                         activeitem := "", activedata := "", word := "",
                         endofitem := false, st := 5 }
    else if ¬ bibEntrytypes.contains s.activetype then
      Except.error "Exception: loadbib unrecognized entry type"
    else
      Except.error "AttributeError: type object has no attribute get_rules"
  else Except.ok s

/-- The end-of-entry processing of the loop body (lines 3303-3328).  For a
recognized entry type the code constructs the entry and then executes
newentry.bib = bib; Entry.setattr denies writing the bib attribute
(lines 737-747), so this raises before post() or output.add can run. -/
def lbEndEntry (s : LoadState) : Except String LoadState :=
  if s.endofentry then
    if s.activetype = "@STRING" ∨ s.activetype = "@COMMENT" then
      Except.ok { s with st := 0, bracket := 0, quote := false, bib := [],
                         activename := "", activetype := "", activeitem := "",
                         activedata := "", word := "", endofentry := false,
                         endofitem := false }
    else if bibEntrytypes.contains s.activetype then
      Except.error "Exception: Entry: Permission denied to write to attribute bib"
    else Except.error "Exception: loadbib unrecognized entry type"
  else Except.ok s

/-- One full iteration of the for loop of loadbib: state dispatch, then
item completion, then entry completion. -/
def lbStep (s : LoadState) (c : Char) : Except String LoadState := do
  let s1 ← lbDispatch s c
  let s2 ← lbEndItem s1
  lbEndEntry s2

/-- Running loadbib on a character stream (lines 3058-3342): fold the loop
body over the input, then apply the end-of-file check.  The result counts
the entries added to the output MasterCollection. -/
def loadbibRun (input : List Char) : Except String Nat :=
  match input.foldlM lbStep lbInit with
  | Except.error e => Except.error e
  | Except.ok s =>
    if s.bracket ≠ 0 ∨ s.st ≠ 0 then
      Except.error "Exception: loadbib: Unexpected end-of-file."
    else Except.ok s.added

/-- The concrete claimed input, with curly braces spelled via their
character codes. -/
def c1Input : List Char :=
  "@BOOK".toList ++ [lbChar] ++ "b1, author=".toList ++ [lbChar]
    ++ "Jane Doe".toList ++ [rbChar] ++ ", title=".toList ++ [lbChar]
    ++ "T".toList ++ [rbChar] ++ ", publisher=".toList ++ [lbChar]
    ++ "P".toList ++ [rbChar] ++ ", year=1999, address=".toList ++ [lbChar]
    ++ "X".toList ++ [rbChar] ++ [rbChar]

/-- A BOOK entry with no items at all, reaching the end-of-entry path. -/
def c1InputNoItems : List Char :=
  "@BOOK".toList ++ [lbChar] ++ "b1".toList ++ [rbChar]

/-- Claim C1: refuted on the code.  Parsing the claimed input does not
construct a BookEntry with coerced fields and zero errors: the first
completed item (author) reaches the et.get_rules call, and no class in
eikosi.py defines get_rules, so loadbib raises AttributeError.  Even an
entry with no items fails: the end-of-entry path assigns newentry.bib,
which Entry.setattr denies, so no recognized entry can ever be loaded. -/
theorem loadbib_book_always_raises :
    loadbibRun c1Input =
      Except.error "AttributeError: type object has no attribute get_rules"
    ∧ loadbibRun c1InputNoItems =
      Except.error "Exception: Entry: Permission denied to write to attribute bib" := by
  exact ⟨rfl, rfl⟩

theorem sort_cache_semantics_witness :
    sortOp 9 c6Sorted 0 "title" false true false = (c6Sorted, Except.ok [0, 1])
    ∧ (getNode (addOp 9 c6State 0 0).1 0).map Node.sortedInst = some (some [])
    ∧ CachePres c6State (removeOp 9 c6State 0 "a").1
    ∧ CachePres c6State (addchildOp 9 c6State 0 0).1 := by
  refine ⟨(sort_cache_semantics 9 c6State 0 "title").1 c6Sorted [0, 1] rfl,
    (sort_cache_semantics 9 c6State 0 "title").2.1 0 0 rfl,
    (sort_cache_semantics 9 c6State 0 "title").2.2.1 "a",
    (sort_cache_semantics 9 c6State 0 "title").2.2.2 0 0⟩

end Eikosi
